import Mathlib

/-!
# Verification of the whatsapp-unwrapped evidence pipeline

A shallow embedding, in Lean 4, of the core pipeline of the
`whatsapp-unwrapped` repository: conversation chunking
(`src/llm/evidence/chunking.py`), evidence gathering
(`src/llm/evidence/gathering.py`), aggregation with temporal sampling and
near-duplicate suppression (`src/llm/evidence/aggregation.py`), the quality
filter cascade (`src/llm/evidence/quality_filter.py`), synthesis validation
(`src/llm/synthesis/generator.py`), and the orchestrator fallback chain
(`src/backend/llm/orchestrator.py`).

Modelling conventions:

* Python lists become `List`, dicts become association lists (first match
  wins on lookup; updates mutate the first matching entry, insertions
  append, mirroring CPython insertion-ordered dicts).
* External text-generation calls are modelled as explicit outcome values
  (success carrying the parsed payload and token counts, or failure
  carrying the exception message): the pipeline code never inspects
  anything else about them.
* `difflib.SequenceMatcher(...).ratio()` (Python standard library, not
  repository code) is abstracted as a `ratio` function parameter on the
  deduplication functions; all theorems hold for an arbitrary such
  function.  Likewise `random.sample` is abstracted as a `choose`
  parameter constrained to return the requested number of elements of its
  input.
* JSON objects coming back from a provider are modelled as association
  lists of string-rendered values, which is how the aggregation and
  filtering code accesses them (`item.get(field, "")`, `str(value)`).
* `\d` in the validation regexes is modelled as the ASCII digit class; the
  pipeline only ever feeds it ASCII evidence strings.
-/

namespace WhatsappUnwrapped

/-! ## Small Python-semantics helpers -/

/-- Python truthiness of an optional string: `None` and `""` are falsy. -/
def py_truthy : Option String → Bool
  | none => false
  | some s => s != ""

/-- `dict.get(key, default)` on an association list: first match wins. -/
def assoc_get (d : List (String × String)) (key : String) : Option String :=
  match d.find? (fun kv => kv.1 == key) with
  | some kv => some kv.2
  | none => none

/-- `item.get(field, "")` as used throughout the aggregation code. -/
def assoc_getD (d : List (String × String)) (key : String) : String :=
  (assoc_get d key).getD ""

/-- `needle in haystack` on Python strings (substring containment). -/
def py_contains (haystack needle : String) : Bool :=
  decide (needle.data <:+: haystack.data)

/-- `s.split()` — split on whitespace, dropping empty fields. -/
def py_split_ws (s : String) : List String :=
  (s.split Char.isWhitespace).filter (fun w => w != "")

/-- A single-quote character (used when rebuilding Python f-strings). -/
def sq : String := "\x27"

/-! ## Data model (`src/models.py`)

`src/models.py` in the repository is stale relative to the pipeline
modules: the pipeline constructs `EvidencePacket`/`ConversationEvidence`
with `conversation_snippets`, `contradictions` and `roasts` categories and
chunk index fields that the checked-in dataclass does not list.  We embed
the shape the pipeline code actually constructs and consumes.  Fields the
claims never touch (`mentions`, `has_link`, chart payloads, most of
`Statistics`) are elided. -/

/-- Minutes-precision timestamp; `strftime("%Y-%m-%d %H:%M")` renders it. -/
structure DateTime where
  year : Nat
  month : Nat
  day : Nat
  hour : Nat
  minute : Nat
deriving DecidableEq

/-- Zero-padded 2-digit rendering, as `%m`/`%d`/`%H`/`%M` produce. -/
def pad2 (n : Nat) : String :=
  if n < 10 then "0" ++ toString n else toString n

/-- Zero-padded 4-digit rendering of the year, as `%Y` produces. -/
def pad4 (n : Nat) : String :=
  if n < 10 then "000" ++ toString n
  else if n < 100 then "00" ++ toString n
  else if n < 1000 then "0" ++ toString n
  else toString n

/-- `timestamp.strftime("%Y-%m-%d %H:%M")`. -/
def strftime_ymd_hm (t : DateTime) : String :=
  pad4 t.year ++ "-" ++ pad2 t.month ++ "-" ++ pad2 t.day ++ " "
    ++ pad2 t.hour ++ ":" ++ pad2 t.minute

/-- A single WhatsApp message (the fields the pipeline reads). -/
structure Message where
  id : Nat
  timestamp : DateTime
  sender : Option String
  text : String
  is_system : Bool
  is_media : Bool
  is_deleted : Bool
deriving DecidableEq

instance : Inhabited Message :=
  ⟨{ id := 0, timestamp := ⟨0, 0, 0, 0, 0⟩, sender := none, text := "",
     is_system := false, is_media := false, is_deleted := false }⟩

inductive ChatType where
  | one_on_one
  | group
deriving DecidableEq

/-- Parsed conversation with metadata. -/
structure Conversation where
  messages : List Message
  chat_type : ChatType
  participants : List String
  source_file : String
deriving DecidableEq

/-- The one field of `BasicStats` the orchestrator reads
(`stats.basic.messages_per_person`, an insertion-ordered dict). -/
structure BasicStats where
  messages_per_person : List (String × Nat)
deriving DecidableEq

/-- Computed statistics (only the component the claims touch). -/
structure Statistics where
  basic : BasicStats
deriving DecidableEq

/-- A behavioral pattern found via Python analysis.  `evidence` entries are
JSON-like objects; the orchestrator renders their values with `str`, so we
keep them string-valued.  `strength` (a float the pipeline never computes
with) is modelled as a rational. -/
structure DetectedPattern where
  pattern_type : String
  person : String
  frequency : Nat
  evidence : List (List (String × String))
  strength : Rat
  description : String
deriving DecidableEq

/-- A single generated award. -/
structure Award where
  title : String
  recipient : String
  evidence : String
  quip : String
deriving DecidableEq

/-- A qualitative evidence item returned by the provider: a JSON object
with string-rendered values. -/
abbrev EvItem := List (String × String)

/-- Qualitative evidence from one chunk, as `_parse_evidence_response` /
`_create_empty_packet` construct it. -/
structure EvidencePacket where
  notable_quotes : List EvItem
  inside_jokes : List EvItem
  dynamics : List String
  funny_moments : List EvItem
  style_notes : List (String × List String)
  award_ideas : List EvItem
  conversation_snippets : List EvItem
  contradictions : List EvItem
  roasts : List EvItem
  chunk_start_idx : Nat
  chunk_end_idx : Nat
deriving DecidableEq

/-- Aggregated evidence across all chunks. -/
structure ConversationEvidence where
  notable_quotes : List EvItem
  inside_jokes : List EvItem
  dynamics : List String
  funny_moments : List EvItem
  style_notes : List (String × List String)
  award_ideas : List EvItem
  conversation_snippets : List EvItem
  contradictions : List EvItem
  roasts : List EvItem
deriving DecidableEq

/-- Complete result from the unwrapped generation. -/
structure UnwrappedResult where
  awards : List Award
  patterns_used : List DetectedPattern
  evidence : Option ConversationEvidence
  model_used : String
  input_tokens : Nat
  output_tokens : Nat
  success : Bool
  error : Option String
deriving DecidableEq

/-! ## Chunking (`src/llm/evidence/chunking.py`) -/

/-- `CHARS_PER_TOKEN = 4`. -/
def CHARS_PER_TOKEN : Nat := 4

def DEFAULT_TARGET_TOKENS : Nat := 8000

def DEFAULT_OVERLAP_TOKENS : Nat := 200

/-- `_estimate_tokens`: `len(text) // CHARS_PER_TOKEN`. -/
def estimate_tokens (text : String) : Nat :=
  text.length / CHARS_PER_TOKEN

/-- `_format_single_message`: `"[{timestamp}] {sender}: {text}\n"` with the
text truncated to 500 characters. -/
def format_single_message (message : Message) : String :=
  let timestamp := strftime_ymd_hm message.timestamp
  let sender := message.sender.getD "System"
  let text :=
    if message.text.length > 500 then message.text.take 500 ++ "..."
    else message.text
  "[" ++ timestamp ++ "] " ++ sender ++ ": " ++ text ++ "\n"

/-- `_format_messages`: newline-join of the formatted messages. -/
def format_messages (messages : List Message) : String :=
  String.intercalate "\n" (messages.map format_single_message)

/-- A chunk of conversation for LLM processing. -/
structure ConversationChunk where
  messages : List Message
  start_idx : Nat
  end_idx : Nat
  token_estimate : Nat
  formatted_text : String
deriving DecidableEq

instance : Inhabited ConversationChunk :=
  ⟨{ messages := [], start_idx := 0, end_idx := 0, token_estimate := 0,
     formatted_text := "" }⟩

/-- The inner `for i in range(current_start, len(messages))` accumulation of
`chunk_conversation`: keep taking messages while the estimate stays within
the target; the break condition fires only once at least one message has
been accepted (`and current_messages`). `acc` is `current_messages`, `text`
is `current_text`. -/
def greedy_take (target_tokens : Nat) :
    List Message → List Message → String → List Message × String
  | acc, [], text => (acc, text)
  | acc, msg :: rest, text =>
    let msg_text := format_single_message msg
    let new_text := text ++ msg_text
    if estimate_tokens new_text > target_tokens ∧ acc ≠ [] then (acc, text)
    else greedy_take target_tokens (acc ++ [msg]) rest new_text

/-- The messages of the chunk starting at `current_start`, including the
`if not current_messages` fallback that emits an oversized message on its
own (unreachable because the greedy loop always accepts its first message,
but kept for fidelity). -/
def chunk_messages (ms : List Message) (target_tokens : Nat)
    (current_start : Nat) : List Message :=
  let g := greedy_take target_tokens [] (ms.drop current_start) ""
  if g.1 = [] then [ms.getD current_start default] else g.1

/-- The accumulated text of the chunk starting at `current_start`. -/
def chunk_text (ms : List Message) (target_tokens : Nat)
    (current_start : Nat) : String :=
  let g := greedy_take target_tokens [] (ms.drop current_start) ""
  if g.1 = [] then format_single_message (ms.getD current_start default)
  else g.2

/-- `current_end` for the chunk starting at `current_start`: the index of
the last message accepted by the greedy loop. -/
def chunk_end (ms : List Message) (target_tokens : Nat)
    (current_start : Nat) : Nat :=
  current_start + (chunk_messages ms target_tokens current_start).length - 1

/-- The chunk record appended by one iteration of the chunking loop. -/
def mk_chunk (ms : List Message) (target_tokens : Nat)
    (current_start : Nat) : ConversationChunk :=
  { messages := chunk_messages ms target_tokens current_start,
    start_idx := current_start,
    end_idx := chunk_end ms target_tokens current_start,
    token_estimate := estimate_tokens (chunk_text ms target_tokens current_start),
    formatted_text := chunk_text ms target_tokens current_start }

/-- The backward walk `for i in range(current_end, current_start - 1, -1)`
that seeds the overlap: `steps` counts the remaining indices (from
`current_end` down to `current_start`), `i` is the current index, `text` is
`overlap_text` and `next` is the running `next_start`. -/
def overlap_walk (ms : List Message) (overlap_tokens : Nat) :
    Nat → Nat → String → Nat → Nat
  | 0, _, _, next => next
  | steps + 1, i, text, next =>
    let msg_text := format_single_message (ms.getD i default)
    if estimate_tokens (text ++ msg_text) > overlap_tokens then next
    else overlap_walk ms overlap_tokens steps (i - 1) (msg_text ++ text) i

/-- `next_start` for the following chunk: start just past `current_end`,
back up while the overlap budget allows, and apply the safety check that
forces forward progress past the previous chunk's `start_idx`. -/
def next_start_calc (ms : List Message) (overlap_tokens : Nat)
    (current_start current_end : Nat) : Nat :=
  let next_start := current_end + 1
  let next_start :=
    if next_start < ms.length ∧ overlap_tokens > 0 then
      overlap_walk ms overlap_tokens (current_end - current_start + 1)
        current_end "" next_start
    else next_start
  if next_start ≤ current_start then current_end + 1 else next_start

/-- `(greedy_take t acc rest text).1` extends `acc`. -/
theorem greedy_take_length_ge (target_tokens : Nat) :
    ∀ (rest : List Message) (acc : List Message) (text : String),
      acc.length ≤ (greedy_take target_tokens acc rest text).1.length := by
  intro rest
  induction rest with
  | nil => intro acc text; simp [greedy_take]
  | cons msg rest ih =>
    intro acc text
    simp only [greedy_take]
    split
    · simp
    · exact le_trans (by simp) (ih (acc ++ [msg]) _)

/-- The greedy loop takes at most the messages it was offered. -/
theorem greedy_take_length_le (target_tokens : Nat) :
    ∀ (rest : List Message) (acc : List Message) (text : String),
      (greedy_take target_tokens acc rest text).1.length
        ≤ acc.length + rest.length := by
  intro rest
  induction rest with
  | nil => intro acc text; simp [greedy_take]
  | cons msg rest ih =>
    intro acc text
    simp only [greedy_take]
    split
    · simp
    · calc (greedy_take target_tokens (acc ++ [msg]) rest _).1.length
          ≤ (acc ++ [msg]).length + rest.length := ih _ _
        _ = acc.length + (msg :: rest).length := by simp; omega

/-- The greedy result is the accumulator followed by an initial slice of
the offered messages. -/
theorem greedy_take_eq_take (target_tokens : Nat) :
    ∀ (rest : List Message) (acc : List Message) (text : String),
      ∃ k, (greedy_take target_tokens acc rest text).1 = acc ++ rest.take k := by
  intro rest
  induction rest with
  | nil => intro acc text; exact ⟨0, by simp [greedy_take]⟩
  | cons msg rest ih =>
    intro acc text
    simp only [greedy_take]
    split
    · exact ⟨0, by simp⟩
    · obtain ⟨k, hk⟩ := ih (acc ++ [msg]) (text ++ format_single_message msg)
      exact ⟨k + 1, by rw [hk]; simp⟩

/-- On a nonempty input the greedy loop accepts at least one message. -/
theorem greedy_take_ne_nil (target_tokens : Nat) (msg : Message)
    (rest : List Message) (text : String) :
    (greedy_take target_tokens [] (msg :: rest) text).1 ≠ [] := by
  simp only [greedy_take]
  have h : ¬(estimate_tokens (text ++ format_single_message msg) > target_tokens
      ∧ ([] : List Message) ≠ []) := by simp
  rw [if_neg h]
  simp only [List.nil_append]
  intro hnil
  have := greedy_take_length_ge target_tokens rest [msg]
    (text ++ format_single_message msg)
  rw [hnil] at this
  simp at this

/-- Every accepted chunk either fits in the target budget or is a single
oversized message: the accumulated text estimate exceeds the target only
when exactly one message was accepted. -/
theorem greedy_take_budget (target_tokens : Nat) :
    ∀ (rest : List Message) (acc : List Message) (text : String),
      (estimate_tokens text ≤ target_tokens ∨ acc.length ≤ 1) →
      (estimate_tokens (greedy_take target_tokens acc rest text).2 ≤ target_tokens
        ∨ (greedy_take target_tokens acc rest text).1.length ≤ 1) := by
  intro rest
  induction rest with
  | nil => intro acc text h; simpa [greedy_take] using h
  | cons msg rest ih =>
    intro acc text h
    simp only [greedy_take]
    split
    · exact h
    · rename_i hcond
      apply ih
      by_cases hacc : acc = []
      · subst hacc; simp
      · left
        by_contra hgt
        exact hcond ⟨by omega, hacc⟩

theorem chunk_messages_ne_nil (ms : List Message) (target_tokens : Nat)
    (current_start : Nat) :
    chunk_messages ms target_tokens current_start ≠ [] := by
  unfold chunk_messages
  dsimp only
  split
  · simp
  · assumption

theorem chunk_end_ge (ms : List Message) (target_tokens : Nat)
    (current_start : Nat) :
    current_start ≤ chunk_end ms target_tokens current_start := by
  unfold chunk_end
  have := chunk_messages_ne_nil ms target_tokens current_start
  have hlen : 1 ≤ (chunk_messages ms target_tokens current_start).length := by
    cases h : chunk_messages ms target_tokens current_start with
    | nil => exact absurd h this
    | cons a l => simp
  omega

theorem chunk_end_lt (ms : List Message) (target_tokens : Nat)
    (current_start : Nat) (h : current_start < ms.length) :
    chunk_end ms target_tokens current_start < ms.length := by
  unfold chunk_end chunk_messages
  dsimp only
  split
  · simpa using h
  · rename_i hne
    have hle := greedy_take_length_le target_tokens (ms.drop current_start) [] ""
    have hdrop : (ms.drop current_start).length = ms.length - current_start := by
      simp
    have h1 : 1 ≤ (greedy_take target_tokens [] (ms.drop current_start) "").1.length := by
      cases hg : (greedy_take target_tokens [] (ms.drop current_start) "").1 with
      | nil => exact absurd hg hne
      | cons a l => simp
    simp only [List.length_nil, Nat.zero_add] at hle
    omega

/-- The overlap walk never moves the next start past `max next i`. -/
theorem overlap_walk_le (ms : List Message) (overlap_tokens : Nat) :
    ∀ (steps i : Nat) (text : String) (next : Nat),
      overlap_walk ms overlap_tokens steps i text next ≤ max next i := by
  intro steps
  induction steps with
  | zero => intro i text next; simp [overlap_walk]
  | succ steps ih =>
    intro i text next
    simp only [overlap_walk]
    split
    · exact le_max_left _ _
    · exact le_trans (ih (i - 1) _ i) (by omega)

/-- The safety check guarantees strict forward progress. -/
theorem next_start_calc_gt (ms : List Message) (overlap_tokens : Nat)
    (current_start current_end : Nat) (h : current_start ≤ current_end) :
    current_start < next_start_calc ms overlap_tokens current_start current_end := by
  unfold next_start_calc
  dsimp only
  split <;> split <;> omega

/-- The next start never skips past `current_end + 1`. -/
theorem next_start_calc_le (ms : List Message) (overlap_tokens : Nat)
    (current_start current_end : Nat) :
    next_start_calc ms overlap_tokens current_start current_end
      ≤ current_end + 1 := by
  unfold next_start_calc
  dsimp only
  have hw := overlap_walk_le ms overlap_tokens (current_end - current_start + 1)
    current_end "" (current_end + 1)
  split <;> split <;> omega

/-- The `while current_start < len(messages)` loop of `chunk_conversation`.
Termination is exactly the loop's own forward-progress argument: the safety
check makes `next_start_calc` strictly exceed `current_start`. -/
def chunk_loop (ms : List Message) (target_tokens overlap_tokens : Nat)
    (current_start : Nat) : List ConversationChunk :=
  if h : current_start < ms.length then
    mk_chunk ms target_tokens current_start ::
      chunk_loop ms target_tokens overlap_tokens
        (next_start_calc ms overlap_tokens current_start
          (chunk_end ms target_tokens current_start))
  else []
termination_by ms.length - current_start
decreasing_by
  have h1 := chunk_end_ge ms target_tokens current_start
  have h2 := next_start_calc_gt ms overlap_tokens current_start
    (chunk_end ms target_tokens current_start) h1
  omega

/-- The `messages = [m for m in conversation.messages if not m.is_system
and m.sender]` filter at the top of `chunk_conversation` (an empty sender
string is falsy in Python). -/
def filtered_messages (conversation : Conversation) : List Message :=
  conversation.messages.filter (fun m => !m.is_system && py_truthy m.sender)

/-- `chunk_conversation`: filter to user messages, return a single chunk
for small conversations, otherwise run the chunking loop. -/
def chunk_conversation (conversation : Conversation)
    (target_tokens overlap_tokens : Nat) : List ConversationChunk :=
  if filtered_messages conversation = [] then []
  else if estimate_tokens (format_messages (filtered_messages conversation))
      ≤ target_tokens then
    [{ messages := filtered_messages conversation,
       start_idx := 0,
       end_idx := (filtered_messages conversation).length - 1,
       token_estimate :=
         estimate_tokens (format_messages (filtered_messages conversation)),
       formatted_text := format_messages (filtered_messages conversation) }]
  else chunk_loop (filtered_messages conversation) target_tokens overlap_tokens 0

/-! ### Invariants of the chunking loop -/

theorem mk_chunk_start (ms : List Message) (target_tokens current_start : Nat) :
    (mk_chunk ms target_tokens current_start).start_idx = current_start := rfl

theorem mk_chunk_end (ms : List Message) (target_tokens current_start : Nat) :
    (mk_chunk ms target_tokens current_start).end_idx
      = chunk_end ms target_tokens current_start := rfl

theorem chunk_loop_cons (ms : List Message) (target_tokens overlap_tokens : Nat)
    {current_start : Nat} (h : current_start < ms.length) :
    chunk_loop ms target_tokens overlap_tokens current_start
      = mk_chunk ms target_tokens current_start ::
          chunk_loop ms target_tokens overlap_tokens
            (next_start_calc ms overlap_tokens current_start
              (chunk_end ms target_tokens current_start)) := by
  rw [chunk_loop]
  simp [h]

theorem chunk_loop_nil (ms : List Message) (target_tokens overlap_tokens : Nat)
    {current_start : Nat} (h : ms.length ≤ current_start) :
    chunk_loop ms target_tokens overlap_tokens current_start = [] := by
  rw [chunk_loop]
  simp [Nat.not_lt.mpr h]

/-- Every chunk produced by the loop is the record built at its own start
index, and the start indices stay in `[current_start, ms.length)`. -/
theorem chunk_loop_mem (ms : List Message) (target_tokens overlap_tokens : Nat) :
    ∀ (fuel current_start : Nat), ms.length - current_start ≤ fuel →
      ∀ c ∈ chunk_loop ms target_tokens overlap_tokens current_start,
        c = mk_chunk ms target_tokens c.start_idx
          ∧ current_start ≤ c.start_idx ∧ c.start_idx < ms.length := by
  intro fuel
  induction fuel with
  | zero =>
    intro s hf c hc
    rw [chunk_loop_nil ms target_tokens overlap_tokens (by omega)] at hc
    simp at hc
  | succ fuel ih =>
    intro s hf c hc
    by_cases h : s < ms.length
    · rw [chunk_loop_cons ms target_tokens overlap_tokens h] at hc
      rcases List.mem_cons.mp hc with hhead | htail
      · subst hhead
        exact ⟨rfl, le_refl _, h⟩
      · have hgt := next_start_calc_gt ms overlap_tokens s
          (chunk_end ms target_tokens s) (chunk_end_ge ms target_tokens s)
        obtain ⟨h1, h2, h3⟩ := ih _ (by omega) c htail
        exact ⟨h1, by omega, h3⟩
    · rw [chunk_loop_nil ms target_tokens overlap_tokens (by omega)] at hc
      simp at hc

/-- Coverage: every message index from `current_start` on is inside some
chunk produced by the loop. -/
theorem chunk_loop_cover (ms : List Message) (target_tokens overlap_tokens : Nat) :
    ∀ (fuel current_start : Nat), ms.length - current_start ≤ fuel →
      current_start < ms.length →
      ∀ i, current_start ≤ i → i < ms.length →
        ∃ c ∈ chunk_loop ms target_tokens overlap_tokens current_start,
          c.start_idx ≤ i ∧ i ≤ c.end_idx := by
  intro fuel
  induction fuel with
  | zero => intro s hf hs; omega
  | succ fuel ih =>
    intro s hf hs i hsi hi
    rw [chunk_loop_cons ms target_tokens overlap_tokens hs]
    by_cases hcov : i ≤ chunk_end ms target_tokens s
    · exact ⟨mk_chunk ms target_tokens s, List.mem_cons_self _ _, hsi, hcov⟩
    · have hnle := next_start_calc_le ms overlap_tokens s
        (chunk_end ms target_tokens s)
      have hngt := next_start_calc_gt ms overlap_tokens s
        (chunk_end ms target_tokens s) (chunk_end_ge ms target_tokens s)
      have hnext_le : next_start_calc ms overlap_tokens s
          (chunk_end ms target_tokens s) ≤ i := by omega
      obtain ⟨c, hcmem, hc1, hc2⟩ := ih _ (by omega) (by omega) i hnext_le hi
      exact ⟨c, List.mem_cons_of_mem _ hcmem, hc1, hc2⟩

/-- The ordering relation between consecutive chunks: strictly increasing
start indices, and the next chunk starts no later than one past the
previous chunk's end. -/
def chunk_rel (a b : ConversationChunk) : Prop :=
  a.start_idx < b.start_idx ∧ b.start_idx ≤ a.end_idx + 1

theorem chunk_loop_chain (ms : List Message) (target_tokens overlap_tokens : Nat) :
    ∀ (fuel current_start : Nat), ms.length - current_start ≤ fuel →
      List.Chain' chunk_rel (chunk_loop ms target_tokens overlap_tokens current_start) := by
  intro fuel
  induction fuel with
  | zero =>
    intro s hf
    rw [chunk_loop_nil ms target_tokens overlap_tokens (by omega)]
    exact List.chain'_nil
  | succ fuel ih =>
    intro s hf
    by_cases h : s < ms.length
    · rw [chunk_loop_cons ms target_tokens overlap_tokens h]
      have hngt := next_start_calc_gt ms overlap_tokens s
        (chunk_end ms target_tokens s) (chunk_end_ge ms target_tokens s)
      refine List.chain'_cons'.mpr ⟨?_, ih _ (by omega)⟩
      intro b hb
      by_cases hnext : next_start_calc ms overlap_tokens s
          (chunk_end ms target_tokens s) < ms.length
      · rw [chunk_loop_cons ms target_tokens overlap_tokens hnext] at hb
        simp only [List.head?_cons, Option.mem_def, Option.some.injEq] at hb
        subst hb
        refine ⟨?_, ?_⟩
        · rw [mk_chunk_start, mk_chunk_start]
          exact hngt
        · rw [mk_chunk_start, mk_chunk_end]
          exact next_start_calc_le ms overlap_tokens s _
      · rw [chunk_loop_nil ms target_tokens overlap_tokens (by omega)] at hb
        simp at hb
    · rw [chunk_loop_nil ms target_tokens overlap_tokens (by omega)]
      exact List.chain'_nil

/-- The chunk built at a live start index holds exactly the contiguous
slice of the filtered message list between its start and end indices. -/
theorem chunk_messages_slice (ms : List Message) (target_tokens : Nat)
    (current_start : Nat) (h : current_start < ms.length) :
    chunk_messages ms target_tokens current_start
      = (ms.drop current_start).take
          (chunk_end ms target_tokens current_start + 1 - current_start) := by
  have hL : 1 ≤ (chunk_messages ms target_tokens current_start).length := by
    have hne := chunk_messages_ne_nil ms target_tokens current_start
    cases hcm : chunk_messages ms target_tokens current_start with
    | nil => exact absurd hcm hne
    | cons a l => simp
  have harith : chunk_end ms target_tokens current_start + 1 - current_start
      = (chunk_messages ms target_tokens current_start).length := by
    unfold chunk_end; omega
  rw [harith]
  obtain ⟨msg, rest, hdrop⟩ : ∃ m r, ms.drop current_start = m :: r := by
    cases hd : ms.drop current_start with
    | nil =>
      exfalso
      have : (ms.drop current_start).length = 0 := by rw [hd]; rfl
      simp only [List.length_drop] at this
      omega
    | cons a l => exact ⟨a, l, rfl⟩
  have hg : (greedy_take target_tokens [] (ms.drop current_start) "").1 ≠ [] := by
    rw [hdrop]; exact greedy_take_ne_nil target_tokens msg rest ""
  obtain ⟨k, hk⟩ := greedy_take_eq_take target_tokens (ms.drop current_start) [] ""
  rw [List.nil_append] at hk
  unfold chunk_messages
  rw [if_neg hg, hk]
  rw [List.length_take]
  rw [List.take_eq_take]
  omega

/-- Each chunk either fits in the target budget or is a single message:
the oversized-message fallback never produces a multi-message chunk. -/
theorem chunk_budget (ms : List Message) (target_tokens : Nat)
    (current_start : Nat) (h : current_start < ms.length) :
    estimate_tokens (chunk_text ms target_tokens current_start) ≤ target_tokens
      ∨ chunk_end ms target_tokens current_start = current_start := by
  obtain ⟨msg, rest, hdrop⟩ : ∃ m r, ms.drop current_start = m :: r := by
    cases hd : ms.drop current_start with
    | nil =>
      exfalso
      have : (ms.drop current_start).length = 0 := by rw [hd]; rfl
      simp only [List.length_drop] at this
      omega
    | cons a l => exact ⟨a, l, rfl⟩
  have hg : (greedy_take target_tokens [] (ms.drop current_start) "").1 ≠ [] := by
    rw [hdrop]; exact greedy_take_ne_nil target_tokens msg rest ""
  have hb := greedy_take_budget target_tokens (ms.drop current_start) [] ""
    (Or.inl (by simp [estimate_tokens]))
  rcases hb with hfit | hshort
  · left
    unfold chunk_text
    rw [if_neg hg]
    exact hfit
  · right
    unfold chunk_end chunk_messages
    rw [if_neg hg]
    have h1 : 1 ≤ (greedy_take target_tokens [] (ms.drop current_start) "").1.length := by
      cases hc : (greedy_take target_tokens [] (ms.drop current_start) "").1 with
      | nil => exact absurd hc hg
      | cons a l => simp
    omega

/-- `i` lies in the (possibly empty) overlap window shared by a pair of
consecutive chunks: at or past the later chunk's start and at or before the
earlier chunk's end. -/
def in_overlap (chunks : List ConversationChunk) (i : Nat) : Prop :=
  ∃ k, k + 1 < chunks.length
    ∧ (chunks.getD (k + 1) default).start_idx ≤ i
    ∧ i ≤ (chunks.getD k default).end_idx

/-- `i` is inside chunk `c`. -/
def chunk_covers (c : ConversationChunk) (i : Nat) : Prop :=
  c.start_idx ≤ i ∧ i ≤ c.end_idx

instance (c : ConversationChunk) (i : Nat) : Decidable (chunk_covers c i) :=
  inferInstanceAs (Decidable (_ ∧ _))

/-- A list whose entries pairwise cannot both satisfy `p`, but one of which
does, contains exactly one entry satisfying `p`. -/
theorem countP_eq_one_of_pairwise {α : Type} (p : α → Bool) :
    ∀ (l : List α), l.Pairwise (fun a b => ¬(p a = true ∧ p b = true)) →
      (∃ x ∈ l, p x = true) → l.countP p = 1 := by
  intro l
  induction l with
  | nil => intro _ hex; simp at hex
  | cons a l ih =>
    intro hpw hex
    have hpw' := List.pairwise_cons.mp hpw
    by_cases hpa : p a = true
    · have hzero : l.countP p = 0 := by
        rw [List.countP_eq_zero]
        intro b hb
        intro hpb
        exact hpw'.1 b hb ⟨hpa, hpb⟩
      rw [List.countP_cons_of_pos _ _ hpa, hzero]
    · rw [List.countP_cons_of_neg _ _ (by simpa using hpa)]
      apply ih hpw'.2
      rcases hex with ⟨x, hx, hpx⟩
      rcases List.mem_cons.mp hx with rfl | hx'
      · exact absurd hpx hpa
      · exact ⟨x, hx', hpx⟩

/-- If the start indices are strictly increasing along the chunk list, a
message index covered by two distinct chunks lies in an overlap window. -/
theorem overlap_of_two_covers (chunks : List ConversationChunk)
    (hpw : chunks.Pairwise (fun a b => a.start_idx < b.start_idx))
    (i : Nat) (hno : ¬ in_overlap chunks i) :
    chunks.Pairwise (fun a b =>
      ¬(decide (chunk_covers a i) = true ∧ decide (chunk_covers b i) = true)) := by
  rw [List.pairwise_iff_getElem] at hpw ⊢
  intro j k hj hk hjk hboth
  rcases hboth with ⟨ha, hb⟩
  rw [decide_eq_true_eq] at ha hb
  apply hno
  have hstart : (chunks.getD (j + 1) default).start_idx
      ≤ chunks[k].start_idx := by
    rcases Nat.eq_or_lt_of_le (Nat.succ_le_of_lt hjk) with heq | hlt
    · rw [List.getD_eq_getElem _ _ (by omega : j + 1 < chunks.length)]
      have : j + 1 = k := heq
      simp [this]
    · have := hpw (j + 1) k (by omega) hk hlt
      rw [List.getD_eq_getElem _ _ (by omega : j + 1 < chunks.length)]
      omega
  refine ⟨j, by omega, le_trans hstart hb.1, ?_⟩
  rw [List.getD_eq_getElem _ _ (by omega : j < chunks.length)]
  exact ha.2

instance : IsTrans ConversationChunk (fun a b => a.start_idx < b.start_idx) :=
  ⟨fun _ _ _ => Nat.lt_trans⟩

/-- Every produced chunk holds the contiguous slice between its indices and
either fits in the budget or is a single (possibly oversized) message. -/
theorem chunk_conversation_mem_eq (conversation : Conversation)
    (target_tokens overlap_tokens : Nat) :
    ∀ c ∈ chunk_conversation conversation target_tokens overlap_tokens,
      c.messages = ((filtered_messages conversation).drop c.start_idx).take
          (c.end_idx + 1 - c.start_idx)
        ∧ (estimate_tokens c.formatted_text ≤ target_tokens
            ∨ c.start_idx = c.end_idx) := by
  intro c hc
  unfold chunk_conversation at hc
  by_cases hnil : filtered_messages conversation = []
  · rw [if_pos hnil] at hc
    simp at hc
  · rw [if_neg hnil] at hc
    have hlen : 1 ≤ (filtered_messages conversation).length := by
      cases hm : filtered_messages conversation with
      | nil => exact absurd hm hnil
      | cons a l => simp
    by_cases hsmall : estimate_tokens
        (format_messages (filtered_messages conversation)) ≤ target_tokens
    · rw [if_pos hsmall] at hc
      rcases List.mem_singleton.mp hc with rfl
      refine ⟨?_, Or.inl hsmall⟩
      simp only [List.drop_zero]
      rw [show (filtered_messages conversation).length - 1 + 1 - 0
          = (filtered_messages conversation).length from by omega]
      rw [List.take_length]
    · rw [if_neg hsmall] at hc
      obtain ⟨heq, _, hlt⟩ := chunk_loop_mem (filtered_messages conversation)
        target_tokens overlap_tokens (filtered_messages conversation).length 0
        (by omega) c hc
      constructor
      · conv_lhs => rw [heq]
        rw [show c.end_idx = chunk_end (filtered_messages conversation)
            target_tokens c.start_idx from by rw [heq]; rfl]
        exact chunk_messages_slice _ _ _ hlt
      · have hb := chunk_budget (filtered_messages conversation)
          target_tokens c.start_idx hlt
        rcases hb with hfit | hsingle
        · left
          rw [show c.formatted_text = chunk_text (filtered_messages conversation)
              target_tokens c.start_idx from by rw [heq]; rfl]
          exact hfit
        · right
          rw [show c.end_idx = chunk_end (filtered_messages conversation)
              target_tokens c.start_idx from by rw [heq]; rfl, hsingle]

/-- Coverage at the top level: every filtered message index is inside some
produced chunk. -/
theorem chunk_conversation_cover (conversation : Conversation)
    (target_tokens overlap_tokens : Nat) :
    ∀ i, i < (filtered_messages conversation).length →
      ∃ c ∈ chunk_conversation conversation target_tokens overlap_tokens,
        chunk_covers c i := by
  intro i hi
  unfold chunk_conversation
  by_cases hnil : filtered_messages conversation = []
  · rw [hnil] at hi
    simp at hi
  · rw [if_neg hnil]
    by_cases hsmall : estimate_tokens
        (format_messages (filtered_messages conversation)) ≤ target_tokens
    · rw [if_pos hsmall]
      refine ⟨_, List.mem_singleton_self _, ?_, ?_⟩
      · exact Nat.zero_le i
      · simp only []
        omega
    · rw [if_neg hsmall]
      obtain ⟨c, hcmem, h1, h2⟩ := chunk_loop_cover (filtered_messages conversation)
        target_tokens overlap_tokens (filtered_messages conversation).length 0
        (by omega) (by omega) i (Nat.zero_le i) hi
      exact ⟨c, hcmem, h1, h2⟩

/-- Start indices are strictly increasing along the produced chunk list. -/
theorem chunk_conversation_pairwise (conversation : Conversation)
    (target_tokens overlap_tokens : Nat) :
    (chunk_conversation conversation target_tokens overlap_tokens).Pairwise
      (fun a b => a.start_idx < b.start_idx) := by
  unfold chunk_conversation
  by_cases hnil : filtered_messages conversation = []
  · rw [if_pos hnil]
    exact List.Pairwise.nil
  · rw [if_neg hnil]
    by_cases hsmall : estimate_tokens
        (format_messages (filtered_messages conversation)) ≤ target_tokens
    · rw [if_pos hsmall]
      simp
    · rw [if_neg hsmall]
      have hchain := chunk_loop_chain (filtered_messages conversation)
        target_tokens overlap_tokens (filtered_messages conversation).length 0
        (by omega)
      have hchain' : List.Chain' (fun a b : ConversationChunk =>
          a.start_idx < b.start_idx)
          (chunk_loop (filtered_messages conversation) target_tokens
            overlap_tokens 0) :=
        List.Chain'.imp (fun a b h => h.1) hchain
      exact List.chain'_iff_pairwise.mp hchain'

/-! ### Example inputs for witnesses and counterexamples -/

/-- A plain user message (non-system, truthy sender). -/
def user_message : Message :=
  { id := 0, timestamp := ⟨2024, 1, 1, 9, 30⟩, sender := some "Alice",
    text := "hello", is_system := false, is_media := false,
    is_deleted := false }

/-- A conversation with a single user message. -/
def single_message_conversation : Conversation :=
  { messages := [user_message], chat_type := ChatType.one_on_one,
    participants := ["Alice", "Bob"], source_file := "chat.txt" }

/-- A system notification message (no sender, `is_system` set). -/
def system_message : Message :=
  { id := 0, timestamp := ⟨2024, 1, 1, 9, 30⟩, sender := none,
    text := "Messages are end-to-end encrypted", is_system := true,
    is_media := false, is_deleted := false }

/-- A conversation whose only message is a system notification, which the
chunker silently filters away. -/
def system_only_conversation : Conversation :=
  { messages := [system_message], chat_type := ChatType.one_on_one,
    participants := ["Alice", "Bob"], source_file := "chat.txt" }

/-- Claim C2, amended: for every conversation and every target/overlap
budget, the segments returned by `chunk_conversation` cover exactly the
*filtered* input messages — the non-system messages with a truthy sender;
`chunk_conversation` silently drops the rest, which is what forces the
amendment.  Each chunk carries the contiguous slice of the filtered list
between its indices, every filtered index lies in some chunk, and an index
outside every overlap window shared by consecutive chunks lies in exactly
one chunk. -/
theorem claim_C2_segments_partition_filtered_messages
    (conversation : Conversation) (target_tokens overlap_tokens : Nat) :
    (∀ c ∈ chunk_conversation conversation target_tokens overlap_tokens,
        c.messages = ((filtered_messages conversation).drop c.start_idx).take
          (c.end_idx + 1 - c.start_idx))
    ∧ (∀ i, i < (filtered_messages conversation).length →
        ∃ c ∈ chunk_conversation conversation target_tokens overlap_tokens,
          chunk_covers c i)
    ∧ (∀ i, i < (filtered_messages conversation).length →
        ¬ in_overlap
            (chunk_conversation conversation target_tokens overlap_tokens) i →
        (chunk_conversation conversation target_tokens overlap_tokens).countP
          (fun c => decide (chunk_covers c i)) = 1) := by
  refine ⟨fun c hc => (chunk_conversation_mem_eq _ _ _ c hc).1,
    chunk_conversation_cover _ _ _, ?_⟩
  intro i hi hno
  apply countP_eq_one_of_pairwise
  · exact overlap_of_two_covers _ (chunk_conversation_pairwise _ _ _) i hno
  · obtain ⟨c, hcmem, hcov⟩ := chunk_conversation_cover _ _ _ i hi
    exact ⟨c, hcmem, decide_eq_true hcov⟩

/-- Claim C2 as literally stated is false on the code: a conversation whose
only message is a system message has a nonempty message set but produces no
segments at all, so the union of the segments' message sets is not the
input message set. -/
theorem claim_C2_counterexample :
    chunk_conversation system_only_conversation 8000 200 = []
      ∧ system_only_conversation.messages ≠ [] := by
  exact ⟨rfl, by decide⟩

/-- Witness for claim C2 at a concrete conversation: filtered message index
0 is covered by some chunk. -/
theorem claim_C2_witness :
    ∃ c ∈ chunk_conversation single_message_conversation 8000 200,
      chunk_covers c 0 :=
  (claim_C2_segments_partition_filtered_messages single_message_conversation
    8000 200).2.1 0 (by decide)

/-- Claim C3: the start indices of the segments produced by
`chunk_conversation` are strictly increasing for every input (the loop's
safety check guarantees forward progress, and that same measure is the
termination argument of the total function `chunk_loop`), and a chunk whose
estimated size exceeds the target budget can only be a single oversized
message emitted as its own segment. -/
theorem claim_C3_start_indices_strictly_increasing
    (conversation : Conversation) (target_tokens overlap_tokens : Nat) :
    (chunk_conversation conversation target_tokens overlap_tokens).Pairwise
        (fun a b => a.start_idx < b.start_idx)
    ∧ ∀ c ∈ chunk_conversation conversation target_tokens overlap_tokens,
        estimate_tokens c.formatted_text ≤ target_tokens
          ∨ c.start_idx = c.end_idx :=
  ⟨chunk_conversation_pairwise _ _ _,
    fun c hc => (chunk_conversation_mem_eq _ _ _ c hc).2⟩

/-- The single chunk produced for `single_message_conversation`. -/
def chunk_w : ConversationChunk :=
  (chunk_conversation single_message_conversation 8000 200).headI

/-- Witness for claim C3 at a concrete conversation and chunk. -/
theorem claim_C3_witness :
    estimate_tokens chunk_w.formatted_text ≤ 8000
      ∨ chunk_w.start_idx = chunk_w.end_idx :=
  (claim_C3_start_indices_strictly_increasing single_message_conversation
    8000 200).2 chunk_w (by decide)

/-! ## Evidence gathering (`src/llm/evidence/gathering.py`)

`gather_evidence_from_chunk` wraps the provider call and the truncation
retry and itself never raises: `_try_gather_evidence` catches every
exception and returns a `ChunkResult` whose `packet` is `none` when even
the retried call failed.  The per-chunk extraction is therefore modelled as
an oracle `outcome : Nat → ChunkResult` giving the result for each chunk
index, and the sequential and parallel drivers are embedded over it. -/

/-- Result from processing a single chunk.  The `response` carries the
token counts `(input_tokens, output_tokens)`; the raw data is elided. -/
structure ChunkResult where
  chunk_index : Nat
  packet : Option EvidencePacket
  response : Option (Nat × Nat)
  error : Option String
deriving DecidableEq

/-- `_create_empty_packet`: the all-empty packet recorded for a chunk whose
processing failed. -/
def create_empty_packet (start_idx end_idx : Nat) : EvidencePacket :=
  { notable_quotes := [], inside_jokes := [], dynamics := [],
    funny_moments := [], style_notes := [], award_ideas := [],
    conversation_snippets := [], contradictions := [], roasts := [],
    chunk_start_idx := start_idx, chunk_end_idx := end_idx }

instance : Inhabited EvidencePacket := ⟨create_empty_packet 0 0⟩

/-- The packet appended for one chunk by `_gather_sequential` (and used
when assembling the ordered list in `_gather_parallel`): the extracted
packet on success, the empty packet on failure. -/
def slot_packet (result : ChunkResult) (chunk : ConversationChunk) :
    EvidencePacket :=
  match result.packet with
  | some packet => packet
  | none => create_empty_packet chunk.start_idx chunk.end_idx

/-- The token counts a chunk contributes in `_gather_sequential` (only
counted when a packet and a response are both present). -/
def slot_tokens (result : ChunkResult) : Nat × Nat :=
  match result.packet with
  | some _ =>
    match result.response with
    | some counts => counts
    | none => (0, 0)
  | none => (0, 0)

/-- The `for i, chunk in enumerate(chunks)` loop of `_gather_sequential`. -/
def gather_seq_go (outcome : Nat → ChunkResult) :
    Nat → List ConversationChunk → List EvidencePacket × Nat × Nat
  | _, [] => ([], 0, 0)
  | i, chunk :: rest =>
    let tail := gather_seq_go outcome (i + 1) rest
    (slot_packet (outcome i) chunk :: tail.1,
      (slot_tokens (outcome i)).1 + tail.2.1,
      (slot_tokens (outcome i)).2 + tail.2.2)

/-- `_gather_sequential`. -/
def gather_sequential (chunks : List ConversationChunk)
    (outcome : Nat → ChunkResult) : List EvidencePacket × Nat × Nat :=
  gather_seq_go outcome 0 chunks

/-- The ordered packet list built at the end of `_gather_parallel` from the
`results` dict (`results.get(i)` may in principle miss, in which case the
empty packet is used, mirroring the `if result and result.packet` guard). -/
def parallel_packet (results : Nat → Option ChunkResult)
    (chunks : List ConversationChunk) (i : Nat) : EvidencePacket :=
  match results i with
  | some r => slot_packet r (chunks.getD i default)
  | none => create_empty_packet (chunks.getD i default).start_idx
      (chunks.getD i default).end_idx

/-- `_gather_parallel`: packets reordered by original chunk index; token
counters accumulated over all completed futures (counted whenever a
response is present, independently of the packet). -/
def gather_parallel (chunks : List ConversationChunk)
    (results : Nat → Option ChunkResult) : List EvidencePacket × Nat × Nat :=
  (((List.range chunks.length).map (parallel_packet results chunks)),
    ((List.range chunks.length).map (fun i =>
      match results i with
      | some r => (r.response.getD (0, 0)).1
      | none => 0)).sum,
    ((List.range chunks.length).map (fun i =>
      match results i with
      | some r => (r.response.getD (0, 0)).2
      | none => 0)).sum)

/-- `gather_all_evidence`: sequential for at most 3 chunks, otherwise the
bounded worker pool.  Every submitted future completes (the worker function
never raises, and a raising future is converted to an error `ChunkResult`
in the `as_completed` loop), so the parallel `results` dict holds exactly
the per-index outcomes. -/
def gather_all_evidence (chunks : List ConversationChunk)
    (outcome : Nat → ChunkResult) : List EvidencePacket × Nat × Nat :=
  if chunks.length ≤ 3 then gather_sequential chunks outcome
  else gather_parallel chunks
    (fun i => if i < chunks.length then some (outcome i) else none)

theorem gather_seq_go_length (outcome : Nat → ChunkResult) :
    ∀ (chunks : List ConversationChunk) (i : Nat),
      (gather_seq_go outcome i chunks).1.length = chunks.length := by
  intro chunks
  induction chunks with
  | nil => intro i; rfl
  | cons chunk rest ih =>
    intro i
    simp only [gather_seq_go, List.length_cons]
    rw [ih (i + 1)]

theorem gather_seq_go_getD (outcome : Nat → ChunkResult) :
    ∀ (chunks : List ConversationChunk) (i j : Nat), j < chunks.length →
      (gather_seq_go outcome i chunks).1.getD j default
        = slot_packet (outcome (i + j)) (chunks.getD j default) := by
  intro chunks
  induction chunks with
  | nil => intro i j hj; simp at hj
  | cons chunk rest ih =>
    intro i j hj
    cases j with
    | zero => simp [gather_seq_go]
    | succ j =>
      simp only [gather_seq_go, List.getD_cons_succ]
      rw [ih (i + 1) j (by simpa using hj)]
      have : i + 1 + j = i + (j + 1) := by omega
      rw [this]

/-- Claim C8: for every list of segments, the gatherer returns exactly one
`EvidencePacket` per segment, in original segment order (the `i`-th packet
is the `i`-th segment's), and a segment whose extraction fails — its
outcome carries no packet even after the truncation retry — contributes an
empty `EvidencePacket` in its own slot without shifting other segments. -/
theorem claim_C8_one_packet_per_segment_in_order
    (chunks : List ConversationChunk) (outcome : Nat → ChunkResult) :
    ((gather_all_evidence chunks outcome).1.length = chunks.length)
    ∧ (∀ i, i < chunks.length → ∀ p, (outcome i).packet = some p →
        (gather_all_evidence chunks outcome).1.getD i default = p)
    ∧ (∀ i, i < chunks.length → (outcome i).packet = none →
        (gather_all_evidence chunks outcome).1.getD i default
          = create_empty_packet (chunks.getD i default).start_idx
              (chunks.getD i default).end_idx) := by
  have hgetD : ∀ i, i < chunks.length →
      (gather_all_evidence chunks outcome).1.getD i default
        = slot_packet (outcome i) (chunks.getD i default) := by
    intro i hi
    unfold gather_all_evidence
    split
    · simpa using gather_seq_go_getD outcome chunks 0 i hi
    · unfold gather_parallel
      dsimp only
      rw [List.getD_eq_getElem _ _ (by simpa using hi), List.getElem_map,
        List.getElem_range]
      unfold parallel_packet
      dsimp only
      rw [if_pos hi]
  refine ⟨?_, ?_, ?_⟩
  · unfold gather_all_evidence
    split
    · exact gather_seq_go_length outcome chunks 0
    · simp [gather_parallel]
  · intro i hi p hp
    rw [hgetD i hi]
    unfold slot_packet
    rw [hp]
  · intro i hi hp
    rw [hgetD i hi]
    unfold slot_packet
    rw [hp]

/-- A per-chunk outcome in which extraction failed outright. -/
def failed_outcome : ChunkResult :=
  { chunk_index := 0, packet := none, response := none,
    error := some "Expecting value: line 1 column 1 (char 0)" }

/-- Witness for claim C8: with one segment whose extraction fails, slot 0
holds the empty packet for that segment's index range. -/
theorem claim_C8_witness :
    (gather_all_evidence [(default : ConversationChunk)]
        (fun _ => failed_outcome)).1.getD 0 default
      = create_empty_packet
          (([(default : ConversationChunk)].getD 0 default)).start_idx
          (([(default : ConversationChunk)].getD 0 default)).end_idx :=
  (claim_C8_one_packet_per_segment_in_order [(default : ConversationChunk)]
    (fun _ => failed_outcome)).2.2 0 (by decide) rfl

/-! ## Aggregation (`src/llm/evidence/aggregation.py`)

`random.sample(population, k)` (Python standard library) is abstracted as
a `choose` function parameter; the code relies only on it returning `k`
elements drawn from the population, which the theorems take as hypotheses.
`difflib.SequenceMatcher(None, a, b).ratio()` is abstracted as a `ratio`
parameter; the theorems hold for every such function.  Python's `sorted`
on the distinct chunk keys is modelled by a structural insertion sort
(extensionally the ascending ordering of the distinct keys, and kernel
computable). -/

def SIMILARITY_THRESHOLD : Rat := 8 / 10

/-- Insert into an ascending list (helper for the model of `sorted`). -/
def insert_sorted (x : Nat) : List Nat → List Nat
  | [] => [x]
  | y :: ys => if x ≤ y then x :: y :: ys else y :: insert_sorted x ys

/-- Ascending sort of a list of chunk indices (model of `sorted`). -/
def sort_nat : List Nat → List Nat
  | [] => []
  | x :: xs => insert_sorted x (sort_nat xs)

theorem mem_insert_sorted {a x : Nat} :
    ∀ {l : List Nat}, a ∈ insert_sorted x l ↔ a = x ∨ a ∈ l := by
  intro l
  induction l with
  | nil => simp [insert_sorted]
  | cons y ys ih =>
    simp only [insert_sorted]
    split
    · simp
    · simp only [List.mem_cons, ih]
      tauto

theorem mem_sort_nat {a : Nat} :
    ∀ {l : List Nat}, a ∈ sort_nat l ↔ a ∈ l := by
  intro l
  induction l with
  | nil => simp [sort_nat]
  | cons x xs ih => simp [sort_nat, mem_insert_sorted, ih]

theorem length_insert_sorted (x : Nat) :
    ∀ (l : List Nat), (insert_sorted x l).length = l.length + 1 := by
  intro l
  induction l with
  | nil => rfl
  | cons y ys ih =>
    simp only [insert_sorted]
    split
    · simp
    · simp [ih]

theorem length_sort_nat :
    ∀ (l : List Nat), (sort_nat l).length = l.length := by
  intro l
  induction l with
  | nil => rfl
  | cons x xs ih => simp [sort_nat, length_insert_sorted, ih]

/-- The bucket `by_chunk[c]`: the items carrying chunk index `c`, in input
order (`defaultdict(list)` appends in iteration order). -/
def bucket_of {α : Type} (c : Nat) (items_with_idx : List (Nat × α)) :
    List α :=
  items_with_idx.filterMap (fun p => if p.1 = c then some p.2 else none)

/-- `sorted(by_chunk.keys())`: the distinct chunk indices in ascending
order. -/
def sorted_chunk_indices {α : Type} (items_with_idx : List (Nat × α)) :
    List Nat :=
  sort_nat ((items_with_idx.map Prod.fst).dedup)

/-- `_temporal_sample`: pass small inputs through; otherwise allocate the
quota round-robin over the sorted chunk buckets, later buckets receiving
the remainder (`take = base + (1 if i >= num_chunks - extra else 0)`), and
draw `take` items per bucket (all of them when the bucket is small,
otherwise a `random.sample`, abstracted as `choose`). -/
def temporal_sample {α : Type} [DecidableEq α]
    (choose : List α → Nat → List α)
    (items_with_idx : List (Nat × α)) (max_count : Nat) : List α :=
  if items_with_idx = [] then []
  else if items_with_idx.length ≤ max_count then items_with_idx.map Prod.snd
  else
    let chunk_indices := sorted_chunk_indices items_with_idx
    let num_chunks := chunk_indices.length
    let base_per_chunk := max_count / num_chunks
    let extra := max_count % num_chunks
    chunk_indices.enum.flatMap (fun p =>
      let chunk_items := bucket_of p.2 items_with_idx
      let quota := base_per_chunk + (if num_chunks - extra ≤ p.1 then 1 else 0)
      if chunk_items.length ≤ quota then chunk_items
      else choose chunk_items quota)

theorem mem_bucket_of {α : Type} {c : Nat} {x : α}
    {items_with_idx : List (Nat × α)} :
    x ∈ bucket_of c items_with_idx ↔ (c, x) ∈ items_with_idx := by
  unfold bucket_of
  rw [List.mem_filterMap]
  constructor
  · rintro ⟨⟨c1, x1⟩, hmem, hval⟩
    by_cases hc : c1 = c
    · subst hc
      simp at hval
      subst hval
      exact hmem
    · simp [hc] at hval
  · intro hmem
    exact ⟨(c, x), hmem, by simp⟩

/-- Claim C6 (amended): whenever a category overflows the sampling quota
*and* the quota is at least the number of segment buckets, the temporal
sampler keeps at least one item from every bucket that had eligible items.
(The un-amended claim fails when the buckets outnumber the quota: the
round-robin allocation then hands the earliest buckets a zero quota.) -/
theorem claim_C6_every_bucket_sampled {α : Type} [DecidableEq α]
    (choose : List α → Nat → List α)
    (hchoose_len : ∀ (l : List α) (k : Nat), k ≤ l.length →
      (choose l k).length = k)
    (hchoose_mem : ∀ (l : List α) (k : Nat) (x : α), x ∈ choose l k → x ∈ l)
    (items_with_idx : List (Nat × α)) (max_count : Nat)
    (hover : max_count < items_with_idx.length)
    (hbuckets : (sorted_chunk_indices items_with_idx).length ≤ max_count) :
    ∀ c ∈ sorted_chunk_indices items_with_idx,
      ∃ x ∈ bucket_of c items_with_idx,
        x ∈ temporal_sample choose items_with_idx max_count := by
  intro c hc
  have hne : items_with_idx ≠ [] := by
    intro h
    rw [h] at hover
    simp at hover
  have hn : 1 ≤ (sorted_chunk_indices items_with_idx).length := by
    cases hk : sorted_chunk_indices items_with_idx with
    | nil => rw [hk] at hc; simp at hc
    | cons a l => simp
  have hbucket_ne : ∃ x0, x0 ∈ bucket_of c items_with_idx := by
    have hc' : c ∈ (items_with_idx.map Prod.fst).dedup := by
      have := (mem_sort_nat (a := c)
        (l := (items_with_idx.map Prod.fst).dedup)).mp hc
      exact this
    rw [List.mem_dedup, List.mem_map] at hc'
    obtain ⟨p, hpmem, hpc⟩ := hc'
    exact ⟨p.2, mem_bucket_of.mpr (by rw [← hpc]; exact hpmem)⟩
  have hbase : 1 ≤ max_count / (sorted_chunk_indices items_with_idx).length :=
    (Nat.one_le_div_iff (by omega)).mpr hbuckets
  obtain ⟨i, hi, hkey⟩ := List.mem_iff_getElem.mp hc
  have henum : (i, c) ∈ (sorted_chunk_indices items_with_idx).enum :=
    List.mem_iff_getElem.mpr ⟨i, by simpa using hi,
      by rw [List.getElem_enum, hkey]⟩
  unfold temporal_sample
  rw [if_neg hne, if_neg (by omega)]
  dsimp only
  set quota := max_count / (sorted_chunk_indices items_with_idx).length
    + (if (sorted_chunk_indices items_with_idx).length
        - max_count % (sorted_chunk_indices items_with_idx).length ≤ i
       then 1 else 0) with hquota
  have hquota_pos : 1 ≤ quota := by
    rw [hquota]
    omega
  by_cases hsmall : (bucket_of c items_with_idx).length ≤ quota
  · obtain ⟨x0, hx0⟩ := hbucket_ne
    refine ⟨x0, hx0, ?_⟩
    rw [List.mem_flatMap]
    refine ⟨(i, c), henum, ?_⟩
    dsimp only
    rw [if_pos hsmall]
    exact hx0
  · have hlen := hchoose_len (bucket_of c items_with_idx) quota (by omega)
    obtain ⟨y, ys, hys⟩ : ∃ y ys, choose (bucket_of c items_with_idx) quota
        = y :: ys := by
      cases hch : choose (bucket_of c items_with_idx) quota with
      | nil => rw [hch] at hlen; simp at hlen; omega
      | cons y ys => exact ⟨y, ys, rfl⟩
    refine ⟨y, hchoose_mem _ _ _ (by rw [hys]; simp), ?_⟩
    rw [List.mem_flatMap]
    refine ⟨(i, c), henum, ?_⟩
    dsimp only
    rw [if_neg hsmall, hys]
    simp

/-- The deterministic stand-in for `random.sample` used in the concrete
examples: take the first `k` items. -/
def choose_head {α : Type} (l : List α) (k : Nat) : List α := l.take k

/-- Three buckets, one item each, quota 2. -/
def c6_items : List (Nat × String) := [(0, "a"), (1, "b"), (2, "c")]

/-- Claim C6 counterexample: with 3 items in 3 buckets and a quota of 2,
the total exceeds the quota, bucket 0 has an eligible item, yet the sample
is `["b", "c"]` — nothing from bucket 0 was kept (its quota is zero, and
any `random.sample` of size zero is empty). -/
theorem claim_C6_counterexample :
    2 < c6_items.length
    ∧ "a" ∈ bucket_of 0 c6_items
    ∧ temporal_sample choose_head c6_items 2 = ["b", "c"]
    ∧ "a" ∉ temporal_sample choose_head c6_items 2 := by decide

/-- Witness for claim C6: four items in two buckets, quota 3 — every
bucket keeps an item. -/
theorem claim_C6_witness :
    ∃ x ∈ bucket_of 0 [(0, "a"), (0, "b"), (1, "c"), (1, "d")],
      x ∈ temporal_sample choose_head [(0, "a"), (0, "b"), (1, "c"), (1, "d")] 3 :=
  claim_C6_every_bucket_sampled choose_head
    (fun l k hk => by simpa [choose_head] using hk)
    (fun l k x hx => List.mem_of_mem_take hx)
    [(0, "a"), (0, "b"), (1, "c"), (1, "d")] 3 (by decide) (by decide)
    0 (by decide)

/-- `_similarity`: `SequenceMatcher(None, a.lower(), b.lower()).ratio()`,
with the matcher's ratio abstracted as `ratio`. -/
def similarity (ratio : String → String → Rat) (a b : String) : Rat :=
  ratio a.toLower b.toLower

/-- The scan of `_deduplicate_quotes`: `result` is the accumulated kept
list; an item whose `quote` field is missing or empty is skipped outright
(`if not quote_text: continue`), otherwise it is kept unless similar to an
already-kept item. -/
def dedup_quotes_go (ratio : String → String → Rat) :
    List EvItem → List EvItem → List EvItem
  | result, [] => result
  | result, quote :: rest =>
    let quote_text := assoc_getD quote "quote"
    if quote_text = "" then dedup_quotes_go ratio result rest
    else if result.any (fun existing =>
        decide (similarity ratio quote_text (assoc_getD existing "quote")
          > SIMILARITY_THRESHOLD)) then
      dedup_quotes_go ratio result rest
    else dedup_quotes_go ratio (result ++ [quote]) rest

/-- `_deduplicate_quotes`. -/
def deduplicate_quotes (ratio : String → String → Rat)
    (quotes : List EvItem) : List EvItem :=
  if quotes = [] then [] else dedup_quotes_go ratio [] quotes

/-- The scan of `_deduplicate_strings`: empty strings are skipped
(`if not s: continue`). -/
def dedup_strings_go (ratio : String → String → Rat) :
    List String → List String → List String
  | result, [] => result
  | result, s :: rest =>
    if s = "" then dedup_strings_go ratio result rest
    else if result.any (fun existing =>
        decide (similarity ratio s existing > SIMILARITY_THRESHOLD)) then
      dedup_strings_go ratio result rest
    else dedup_strings_go ratio (result ++ [s]) rest

/-- `_deduplicate_strings`. -/
def deduplicate_strings (ratio : String → String → Rat)
    (strings : List String) : List String :=
  if strings = [] then [] else dedup_strings_go ratio [] strings

/-- The scan of `_deduplicate_by_field`: an item whose `field` entry is
missing or empty is skipped outright (`if not value: continue`); values are
already strings, so `str(value)` is the identity here. -/
def dedup_by_field_go (ratio : String → String → Rat) (field : String) :
    List EvItem → List EvItem → List EvItem
  | result, [] => result
  | result, item :: rest =>
    let value := assoc_getD item field
    if value = "" then dedup_by_field_go ratio field result rest
    else if result.any (fun existing =>
        decide (similarity ratio value (assoc_getD existing field)
          > SIMILARITY_THRESHOLD)) then
      dedup_by_field_go ratio field result rest
    else dedup_by_field_go ratio field (result ++ [item]) rest

/-- `_deduplicate_by_field`. -/
def deduplicate_by_field (ratio : String → String → Rat)
    (items : List EvItem) (field : String) : List EvItem :=
  if items = [] then [] else dedup_by_field_go ratio field [] items

theorem dedup_quotes_go_field (ratio : String → String → Rat) :
    ∀ (rest result : List EvItem),
      (∀ x ∈ result, assoc_getD x "quote" ≠ "") →
      ∀ x ∈ dedup_quotes_go ratio result rest, assoc_getD x "quote" ≠ "" := by
  intro rest
  induction rest with
  | nil => intro result hres x hx; exact hres x hx
  | cons quote rest ih =>
    intro result hres x hx
    simp only [dedup_quotes_go] at hx
    by_cases hq : assoc_getD quote "quote" = ""
    · rw [if_pos hq] at hx
      exact ih result hres x hx
    · rw [if_neg hq] at hx
      split at hx
      · exact ih result hres x hx
      · refine ih (result ++ [quote]) ?_ x hx
        intro y hy
        rcases List.mem_append.mp hy with hy | hy
        · exact hres y hy
        · rw [List.mem_singleton.mp hy]
          exact hq

theorem dedup_strings_go_ne (ratio : String → String → Rat) :
    ∀ (rest result : List String),
      (∀ s ∈ result, s ≠ "") →
      ∀ s ∈ dedup_strings_go ratio result rest, s ≠ "" := by
  intro rest
  induction rest with
  | nil => intro result hres s hs; exact hres s hs
  | cons t rest ih =>
    intro result hres s hs
    simp only [dedup_strings_go] at hs
    by_cases ht : t = ""
    · rw [if_pos ht] at hs
      exact ih result hres s hs
    · rw [if_neg ht] at hs
      split at hs
      · exact ih result hres s hs
      · refine ih (result ++ [t]) ?_ s hs
        intro y hy
        rcases List.mem_append.mp hy with hy | hy
        · exact hres y hy
        · rw [List.mem_singleton.mp hy]
          exact ht

theorem dedup_by_field_go_ne (ratio : String → String → Rat) (field : String) :
    ∀ (rest result : List EvItem),
      (∀ x ∈ result, assoc_getD x field ≠ "") →
      ∀ x ∈ dedup_by_field_go ratio field result rest,
        assoc_getD x field ≠ "" := by
  intro rest
  induction rest with
  | nil => intro result hres x hx; exact hres x hx
  | cons item rest ih =>
    intro result hres x hx
    simp only [dedup_by_field_go] at hx
    by_cases hv : assoc_getD item field = ""
    · rw [if_pos hv] at hx
      exact ih result hres x hx
    · rw [if_neg hv] at hx
      split at hx
      · exact ih result hres x hx
      · refine ih (result ++ [item]) ?_ x hx
        intro y hy
        rcases List.mem_append.mp hy with hy | hy
        · exact hres y hy
        · rw [List.mem_singleton.mp hy]
          exact hv

/-- Claim C10: the near-duplicate suppression passes silently discard any
item whose defining text field is missing or empty — every item they
retain has a nonempty defining field (the `quote` field for notable
quotes, the given dedup field for dict categories, the string itself for
string categories), so an item with an empty defining field never reaches
the aggregated evidence even when it has no duplicate.  This holds for
every similarity function. -/
theorem claim_C10_empty_field_items_discarded
    (ratio : String → String → Rat) (field : String)
    (quotes : List EvItem) (strings : List String) (items : List EvItem) :
    (∀ x ∈ deduplicate_quotes ratio quotes, assoc_getD x "quote" ≠ "")
    ∧ (∀ s ∈ deduplicate_strings ratio strings, s ≠ "")
    ∧ (∀ x ∈ deduplicate_by_field ratio items field,
        assoc_getD x field ≠ "") := by
  refine ⟨?_, ?_, ?_⟩
  · intro x hx
    unfold deduplicate_quotes at hx
    split at hx
    · simp at hx
    · exact dedup_quotes_go_field ratio quotes [] (by simp) x hx
  · intro s hs
    unfold deduplicate_strings at hs
    split at hs
    · simp at hs
    · exact dedup_strings_go_ne ratio strings [] (by simp) s hs
  · intro x hx
    unfold deduplicate_by_field at hx
    split at hx
    · simp at hx
    · exact dedup_by_field_go_ne ratio field items [] (by simp) x hx

/-- A degenerate similarity function for the concrete examples. -/
def ratio_zero : String → String → Rat := fun _ _ => 0

/-- Witness for claim C10: a kept quote item has a nonempty quote field. -/
theorem claim_C10_witness :
    assoc_getD [("quote", "so true")] "quote" ≠ "" :=
  (claim_C10_empty_field_items_discarded ratio_zero "description"
    [[("quote", "so true")]] [] []).1 [("quote", "so true")] (by decide)

/-! ## Quality filter (`src/llm/evidence/quality_filter.py`)

The two judge calls (`provider.complete_json` plus response handling) are
modelled as explicit outcomes: each strategy either raises before its token
counts were added, raises after they were added (e.g. when
`_parse_filtered_response` trips over a non-dict payload), or succeeds with
a parsed payload. -/

/-- `_create_empty_evidence` (from `aggregation.py`). -/
def create_empty_evidence : ConversationEvidence :=
  { notable_quotes := [], inside_jokes := [], dynamics := [],
    funny_moments := [], style_notes := [], award_ideas := [],
    conversation_snippets := [], contradictions := [], roasts := [] }

/-- `_count_evidence`: item counts per category (style notes excluded). -/
def count_evidence (evidence : ConversationEvidence) : List (String × Nat) :=
  [("quotes", evidence.notable_quotes.length),
   ("jokes", evidence.inside_jokes.length),
   ("moments", evidence.funny_moments.length),
   ("snippets", evidence.conversation_snippets.length),
   ("dynamics", evidence.dynamics.length),
   ("contradictions", evidence.contradictions.length),
   ("roasts", evidence.roasts.length),
   ("awards", evidence.award_ideas.length)]

/-- `sum(before_counts.values())`. -/
def total_evidence_items (evidence : ConversationEvidence) : Nat :=
  ((count_evidence evidence).map Prod.snd).sum

/-- The parsed JSON of the full-filter response (strategy 1): per
category, `some` when the key is present with a list value (the only shape
`safe_list`/`safe_string_list` accept), `none` otherwise. -/
structure FilteredData where
  notable_quotes : Option (List EvItem)
  inside_jokes : Option (List EvItem)
  funny_moments : Option (List EvItem)
  conversation_snippets : Option (List EvItem)
  dynamics : Option (List String)
  contradictions : Option (List EvItem)
  roasts : Option (List EvItem)
  award_ideas : Option (List EvItem)
deriving DecidableEq

/-- `_parse_filtered_response`: use the model's list where present, fall
back to the original per category; `dynamics` entries are stringified with
falsy entries dropped; style notes are never filtered. -/
def parse_filtered_response (data : FilteredData)
    (original : ConversationEvidence) : ConversationEvidence :=
  { notable_quotes := data.notable_quotes.getD original.notable_quotes,
    inside_jokes := data.inside_jokes.getD original.inside_jokes,
    funny_moments := data.funny_moments.getD original.funny_moments,
    conversation_snippets :=
      data.conversation_snippets.getD original.conversation_snippets,
    dynamics :=
      match data.dynamics with
      | some l => l.filter (fun s => s != "")
      | none => original.dynamics,
    contradictions := data.contradictions.getD original.contradictions,
    roasts := data.roasts.getD original.roasts,
    award_ideas := data.award_ideas.getD original.award_ideas,
    style_notes := original.style_notes }

/-- The parsed JSON of the index-only response (strategy 2): per category,
`some` when the key is present with a list value, `none` otherwise
(non-integer entries are dropped by the `isinstance` check and so are
elided from the model). -/
structure IndexData where
  notable_quotes : Option (List Int)
  inside_jokes : Option (List Int)
  funny_moments : Option (List Int)
  conversation_snippets : Option (List Int)
  dynamics : Option (List Int)
  contradictions : Option (List Int)
  roasts : Option (List Int)
  award_ideas : Option (List Int)
deriving DecidableEq

/-- `filter_by_indices`: keep the items at the valid (in-bounds,
non-negative) indices, in the order the indices were returned; a
non-list value keeps everything. -/
def filter_by_indices {α : Type} [Inhabited α] (items : List α)
    (indices : Option (List Int)) : List α :=
  match indices with
  | none => items
  | some idxs =>
    (idxs.filter (fun i => decide (0 ≤ i) && decide (i < (items.length : Int)))).map
      (fun i => items.getD i.toNat default)

/-- `_apply_index_filter`. -/
def apply_index_filter (data : IndexData)
    (original : ConversationEvidence) : ConversationEvidence :=
  { notable_quotes := filter_by_indices original.notable_quotes data.notable_quotes,
    inside_jokes := filter_by_indices original.inside_jokes data.inside_jokes,
    funny_moments := filter_by_indices original.funny_moments data.funny_moments,
    conversation_snippets :=
      filter_by_indices original.conversation_snippets data.conversation_snippets,
    dynamics := filter_by_indices original.dynamics data.dynamics,
    contradictions := filter_by_indices original.contradictions data.contradictions,
    roasts := filter_by_indices original.roasts data.roasts,
    award_ideas := filter_by_indices original.award_ideas data.award_ideas,
    style_notes := original.style_notes }

/-- Outcome of one filtering strategy (the `try` block around a judge
call): raised before its token counts were added, raised after, or
succeeded with parsed data and token counts. -/
inductive CallOutcome (α : Type) where
  | raised
  | raised_late (input_tokens output_tokens : Nat)
  | ok (data : α) (input_tokens output_tokens : Nat)
deriving DecidableEq

/-- Whether the strategy ended in its `except` handler. -/
def CallOutcome.failed {α : Type} : CallOutcome α → Bool
  | .ok _ _ _ => false
  | _ => true

/-- The token counts the strategy contributed to the running totals. -/
def CallOutcome.counted {α : Type} : CallOutcome α → Nat × Nat
  | .raised => (0, 0)
  | .raised_late tin tout => (tin, tout)
  | .ok _ tin tout => (tin, tout)

/-- `filter_evidence_by_quality`: skip tiny evidence sets; otherwise try
the full structured filter, then the index-only fallback, then return the
input unchanged. -/
def filter_evidence_by_quality (evidence : ConversationEvidence)
    (full_call : CallOutcome FilteredData)
    (index_call : CallOutcome IndexData) :
    ConversationEvidence × Nat × Nat :=
  if total_evidence_items evidence < 5 then (evidence, 0, 0)
  else
    match full_call with
    | .ok data tin tout => (parse_filtered_response data evidence, tin, tout)
    | fail1 =>
      match index_call with
      | .ok data tin tout =>
        (apply_index_filter data evidence,
          fail1.counted.1 + tin, fail1.counted.2 + tout)
      | fail2 =>
        (evidence, fail1.counted.1 + fail2.counted.1,
          fail1.counted.2 + fail2.counted.2)

/-- Claim C7: if both quality-filter strategies fail (the full
structured-output judge call and the index-only fallback both raise),
`filter_evidence_by_quality` returns the input evidence unchanged — the
returned `ConversationEvidence` is the input value itself, so every
category list is exactly the input list. -/
theorem claim_C7_double_failure_returns_input
    (evidence : ConversationEvidence)
    (full_call : CallOutcome FilteredData)
    (index_call : CallOutcome IndexData)
    (h1 : full_call.failed = true) (h2 : index_call.failed = true) :
    (filter_evidence_by_quality evidence full_call index_call).1
      = evidence := by
  unfold filter_evidence_by_quality
  split
  · rfl
  · cases full_call <;> cases index_call <;>
      simp_all [CallOutcome.failed]

/-- Witness for claim C7: both strategies raise on an empty evidence set,
which comes back unchanged. -/
theorem claim_C7_witness :
    (filter_evidence_by_quality create_empty_evidence CallOutcome.raised
        (CallOutcome.raised_late 7 3)).1 = create_empty_evidence :=
  claim_C7_double_failure_returns_input create_empty_evidence
    CallOutcome.raised (CallOutcome.raised_late 7 3) rfl rfl

/-! ## Synthesis validation (`src/llm/synthesis/generator.py`) -/

/-- `re.search(r"\d+", evidence)`: some character is a digit (the `\d`
class modelled as ASCII digits). -/
def contains_digit (s : String) : Bool := s.data.any Char.isDigit

/-- A character of the regex class holding the double and single quote. -/
def is_quote_char (c : Char) : Bool := c == Char.ofNat 34 || c == Char.ofNat 39

/-- Split a character list at newline characters (keeping empty lines). -/
def split_lines_chars : List Char → List (List Char)
  | [] => [[]]
  | c :: rest =>
    let r := split_lines_chars rest
    if c == Char.ofNat 10 then [] :: r
    else (c :: r.headI) :: r.tail

/-- The quoted-text regex of `_has_specific_evidence`: a quote character,
a lazy run of non-newline characters, and another quote character.  It
matches exactly when some newline-separated line holds at least two quote
characters. -/
def contains_quote_pair (s : String) : Bool :=
  (split_lines_chars s.data).any
    (fun line => decide (2 ≤ line.countP is_quote_char))

/-- The time regex of `_has_specific_evidence` over a character list: one
or two digits then a colon and two digits, or one or two digits then
`am`/`pm` up to case.  A match exists exactly when a window of the form
digit-colon-digit-digit or digit-(a/p)-(m) occurs. -/
def contains_time_pattern_chars : List Char → Bool
  | a :: b :: c :: d :: rest =>
    (a.isDigit && b == Char.ofNat 58 && c.isDigit && d.isDigit)
      || (a.isDigit && (b.toLower == Char.ofNat 97 || b.toLower == Char.ofNat 112)
            && c.toLower == Char.ofNat 109)
      || contains_time_pattern_chars (b :: c :: d :: rest)
  | [a, b, c] =>
    a.isDigit && (b.toLower == Char.ofNat 97 || b.toLower == Char.ofNat 112)
      && c.toLower == Char.ofNat 109
  | _ => false

def contains_time_pattern (s : String) : Bool :=
  contains_time_pattern_chars s.data

/-- The percentage regex of `_has_specific_evidence` over a character
list: a digit directly followed by a percent sign. -/
def contains_percent_chars : List Char → Bool
  | a :: b :: rest =>
    (a.isDigit && b == Char.ofNat 37) || contains_percent_chars (b :: rest)
  | _ => false

def contains_percent (s : String) : Bool := contains_percent_chars s.data

/-- `_has_specific_evidence`: numbers, quoted text, time references or a
percentage. -/
def has_specific_evidence (evidence : String) : Bool :=
  contains_digit evidence || contains_quote_pair evidence
    || contains_time_pattern evidence || contains_percent evidence

/-- The f-string of the specificity issue. -/
def lacks_evidence_issue (title : String) : String :=
  "Award " ++ sq ++ title ++ sq
    ++ " lacks specific evidence (no numbers/quotes)"

/-- The award-count check of `_get_issues`. -/
def award_count_issues (awards : List Award) : List String :=
  if awards.length < 6 then
    ["Only " ++ toString awards.length ++ " awards generated, need 6"]
  else if awards.length > 6 then
    ["Generated " ++ toString awards.length ++ " awards, should be exactly 6"]
  else []

/-- `counts.get(key, 0)` on an association list (first match wins). -/
def assoc_nat_get : List (String × Nat) → String → Nat
  | [], _ => 0
  | kv :: rest, key => if kv.1 == key then kv.2 else assoc_nat_get rest key

/-- `counts[key] = counts.get(key, 0) + 1` on an insertion-ordered dict. -/
def assoc_nat_bump : List (String × Nat) → String → List (String × Nat)
  | [], key => [(key, 1)]
  | kv :: rest, key =>
    if kv.1 == key then (kv.1, kv.2 + 1) :: rest
    else kv :: assoc_nat_bump rest key

/-- The `recipient_counts` dict of `_get_issues`. -/
def recipient_counts (awards : List Award) : List (String × Nat) :=
  awards.foldl (fun counts award => assoc_nat_bump counts award.recipient) []

/-- The balance check of `_get_issues`. -/
def award_balance_issues (awards : List Award) : List String :=
  (recipient_counts awards).filterMap (fun rc =>
    if rc.2 > 4 then
      some (rc.1 ++ " has " ++ toString rc.2 ++ " awards, should have 2-4")
    else none)

/-- The unknown-recipient check of `_get_issues` (membership and the
partial match consult only the lowercased participant names, so the
`normalized_participants` dict is modelled by that list). -/
def unknown_recipient_issues (awards : List Award)
    (participants : List String) : List String :=
  awards.filterMap (fun award =>
    let recipient_lower := award.recipient.toLower
    if (participants.map String.toLower).contains recipient_lower then none
    else if (participants.map String.toLower).any (fun p_lower =>
        py_contains p_lower recipient_lower
          || py_contains recipient_lower p_lower) then none
    else some ("Unknown recipient: " ++ award.recipient))

/-- The specificity check of `_get_issues`. -/
def specificity_issues (awards : List Award) : List String :=
  awards.filterMap (fun award =>
    if has_specific_evidence award.evidence then none
    else some (lacks_evidence_issue award.title))

/-- The quip word-count check of `_get_issues`. -/
def quip_length_issues (awards : List Award) : List String :=
  awards.filterMap (fun award =>
    let word_count := (py_split_ws award.quip).length
    if word_count > 20 then
      some ("Award " ++ sq ++ award.title ++ sq ++ " quip too long ("
        ++ toString word_count ++ " words)")
    else none)

/-- `_get_issues`: the issue lists in the order the code appends them. -/
def get_issues (awards : List Award) (participants : List String) :
    List String :=
  award_count_issues awards ++ award_balance_issues awards
    ++ unknown_recipient_issues awards participants
    ++ specificity_issues awards ++ quip_length_issues awards

/-- A percentage match contains a digit. -/
theorem contains_digit_of_percent :
    ∀ (l : List Char), contains_percent_chars l = true →
      l.any Char.isDigit = true := by
  intro l
  induction l with
  | nil => intro h; simp [contains_percent_chars] at h
  | cons a tail ih =>
    intro h
    cases tail with
    | nil => simp [contains_percent_chars] at h
    | cons b rest =>
      simp only [contains_percent_chars, Bool.or_eq_true, Bool.and_eq_true]
        at h
      rcases h with ⟨ha, _⟩ | h
      · simp [List.any_cons, ha]
      · simp only [List.any_cons, Bool.or_eq_true]
        right
        simpa [List.any_cons] using ih h

/-- Claim C9: every award whose evidence field contains neither a digit,
nor a quoted substring, nor a time-of-day pattern is flagged by
`_get_issues`: the issue list contains the specificity complaint naming
that award, and is therefore non-empty. -/
theorem claim_C9_validation_flags_unspecific_evidence
    (awards : List Award) (participants : List String) (award : Award)
    (hmem : award ∈ awards)
    (hdigit : contains_digit award.evidence = false)
    (hquote : contains_quote_pair award.evidence = false)
    (htime : contains_time_pattern award.evidence = false) :
    lacks_evidence_issue award.title ∈ get_issues awards participants
      ∧ get_issues awards participants ≠ [] := by
  have hperc : contains_percent award.evidence = false := by
    by_contra h
    have h' : contains_percent_chars award.evidence.data = true := by
      revert h
      unfold contains_percent
      cases contains_percent_chars award.evidence.data <;> simp
    have := contains_digit_of_percent award.evidence.data h'
    unfold contains_digit at hdigit
    rw [this] at hdigit
    cases hdigit
  have hspec : has_specific_evidence award.evidence = false := by
    unfold has_specific_evidence
    rw [hdigit, hquote, htime, hperc]
    rfl
  have hmem_spec :
      lacks_evidence_issue award.title ∈ specificity_issues awards := by
    unfold specificity_issues
    rw [List.mem_filterMap]
    refine ⟨award, hmem, ?_⟩
    rw [hspec]
    rfl
  have hmem_all :
      lacks_evidence_issue award.title ∈ get_issues awards participants := by
    unfold get_issues
    simp only [List.mem_append]
    tauto
  exact ⟨hmem_all, List.ne_nil_of_mem hmem_all⟩

/-- An award whose evidence has no digit, no quoted text and no time
pattern. -/
def vague_award : Award :=
  { title := "The Vague Award", recipient := "Alice",
    evidence := "always very supportive and kind",
    quip := "just the nicest" }

/-- Witness for claim C9 at a concrete award list. -/
theorem claim_C9_witness :
    lacks_evidence_issue vague_award.title ∈ get_issues [vague_award] ["Alice"]
      ∧ get_issues [vague_award] ["Alice"] ≠ [] :=
  claim_C9_validation_flags_unspecific_evidence [vague_award] ["Alice"]
    vague_award (List.mem_singleton_self vague_award) (by decide) (by decide)
    (by decide)

/-! ## Orchestrator (`src/backend/llm/orchestrator.py`)

`detect_all_patterns` (the heuristic pattern-detection collaborator of
`analysis/pattern_detection.py`, explicitly outside the pipeline core) is
passed in as a function parameter; the orchestrator uses its output
verbatim.  `generate_unwrapped` either returns the result it constructs
with a hardcoded `success=True`, or raises one of the four exception
classes the fallback chain catches; that try block is modelled as an
`Except PipelineError FullRunData` outcome.  The inner try of
`_generate_without_evidence` is likewise an `Except String NoEvidenceRun`
outcome.  `os.environ.get(env_key)` is the `env_api_key` parameter. -/

def PROVIDER_ANTHROPIC : String := "anthropic"

def PROVIDER_OPENAI : String := "openai"

/-- The pattern-type to title table of `_create_pattern_awards`. -/
def title_templates : List (String × String) :=
  [("late_good_morning", "The Late Riser Award"),
   ("late_goodnight", "The Night Owl Award"),
   ("midnight_philosopher", "The Midnight Philosopher"),
   ("catchphrase", "The Catchphrase Champion"),
   ("laugh_style", "The Signature Laugh Award"),
   ("apology_patterns", "The Apology Artist"),
   ("punctuation_habits", "The Punctuation Enthusiast"),
   ("emoji_signature", "The Emoji Expert"),
   ("triple_texter", "The Triple Texter"),
   ("message_length_style", "The Word Count Champion"),
   ("initiator_imbalance", "The Conversation Starter"),
   ("question_asker", "The Curious One")]

/-- `str.title()`: start-of-word characters uppercased, the rest of each
word lowercased (word boundaries at non-alphabetic characters). -/
def py_title_chars : List Char → Bool → List Char
  | [], _ => []
  | c :: rest, prev_cased =>
    (if prev_cased then c.toLower else c.toUpper)
      :: py_title_chars rest c.isAlpha

def py_title (s : String) : String := String.mk (py_title_chars s.data false)

/-- The award title for a pattern: the template for known pattern types,
otherwise `"The " + pattern_type.replace("_", " ").title()`. -/
def pattern_award_title (p : DetectedPattern) : String :=
  match title_templates.find? (fun kv => kv.1 == p.pattern_type) with
  | some kv => kv.2
  | none => "The " ++ py_title (p.pattern_type.replace "_" " ")

/-- The award evidence for a pattern: its description, annotated with the
first two entries of the first evidence record when one exists. -/
def pattern_award_evidence (p : DetectedPattern) : String :=
  match p.evidence with
  | [] => p.description
  | first_ev :: _ =>
    p.description ++ " ("
      ++ String.intercalate ", "
          ((first_ev.take 2).map (fun kv => kv.1 ++ ": " ++ kv.2))
      ++ ")"

/-- The award built from one pattern in `_create_pattern_awards`. -/
def pattern_award (p : DetectedPattern) : Award :=
  { title := pattern_award_title p, recipient := p.person,
    evidence := pattern_award_evidence p,
    quip := "(Generated in offline mode)" }

/-- The generic backfill award of `_create_pattern_awards`. -/
def active_participant_award (recipient : String) : Award :=
  { title := "Active Participant Award", recipient := recipient,
    evidence := "Consistently engaged in conversation",
    quip := "(Generated in offline mode)" }

/-- `awards_per_person = {p: 0 for p in participants}`. -/
def initial_counts (participants : List String) : List (String × Nat) :=
  participants.map (fun p => (p, 0))

/-- The `for pattern in patterns` loop of `_create_pattern_awards`: stop
at 6 awards, skip a pattern whose person already holds 4, otherwise append
the pattern award and bump the count. -/
def awards_loop :
    List DetectedPattern → List Award → List (String × Nat) →
      List Award × List (String × Nat)
  | [], awards, counts => (awards, counts)
  | p :: rest, awards, counts =>
    if awards.length ≥ 6 then (awards, counts)
    else if assoc_nat_get counts p.person ≥ 4 then awards_loop rest awards counts
    else awards_loop rest (awards ++ [pattern_award p])
      (assoc_nat_bump counts p.person)

/-- `min(participants, key=...)`: the first participant attaining the
minimal count (Python `min` keeps the earliest minimum). -/
def py_min_by (f : String → Nat) : String → List String → String
  | best, [] => best
  | best, p :: rest =>
    if f p < f best then py_min_by f p rest else py_min_by f best rest

/-- The `while len(awards) < 6 and participants` backfill loop.  The fuel
is `6 - len(awards)` at entry: the loop appends exactly one award per
iteration and stops at 6, so the fuel never runs out before the loop
condition fails. -/
def backfill_go (participants : List String) :
    Nat → List Award → List (String × Nat) → List Award
  | 0, awards, _ => awards
  | fuel + 1, awards, counts =>
    match participants with
    | [] => awards
    | p0 :: rest =>
      if awards.length < 6 then
        let min_person := py_min_by (fun p => assoc_nat_get counts p) p0 rest
        backfill_go participants fuel
          (awards ++ [active_participant_award min_person])
          (assoc_nat_bump counts min_person)
      else awards

/-- `_create_pattern_awards`. -/
def create_pattern_awards (patterns : List DetectedPattern)
    (participants : List String) : List Award :=
  let phase := awards_loop patterns [] (initial_counts participants)
  (backfill_go participants (6 - phase.1.length) phase.1 phase.2).take 6

/-- `generate_unwrapped_offline`: pattern detection only, pattern-based
awards, the offline sentinel, zero token counts, `success=True`. -/
def generate_unwrapped_offline
    (detect_all_patterns : Conversation → Statistics → List DetectedPattern)
    (conversation : Conversation) (stats : Statistics) : UnwrappedResult :=
  let participants := stats.basic.messages_per_person.map Prod.fst
  let patterns := detect_all_patterns conversation stats
  { awards := create_pattern_awards patterns participants,
    patterns_used := patterns, evidence := none, model_used := "offline",
    input_tokens := 0, output_tokens := 0, success := true, error := none }

/-- The exception classes the fallback chain distinguishes
(`ProviderError`, `EvidenceError`, `SynthesisError`, anything else). -/
inductive PipelineError where
  | provider (msg : String)
  | evidence (msg : String)
  | synthesis (msg : String)
  | unexpected (msg : String)
deriving DecidableEq

/-- What a successful full `generate_unwrapped` run produced. -/
structure FullRunData where
  awards : List Award
  patterns_used : List DetectedPattern
  evidence : ConversationEvidence
  input_tokens : Nat
  output_tokens : Nat
deriving DecidableEq

/-- `model_name` chosen in `generate_unwrapped` from the provider. -/
def full_model_name (provider : String) : String :=
  if provider == PROVIDER_OPENAI then "gpt-mini+gpt-main" else "haiku+sonnet"

/-- `model_name` chosen in `_generate_without_evidence`. -/
def no_evidence_model_name (provider : String) : String :=
  if provider == PROVIDER_OPENAI then "gpt-main-only" else "sonnet-only"

/-- The `UnwrappedResult` constructed at the end of `generate_unwrapped`
on its success path: `success=True`, no error. -/
def generate_unwrapped_result (provider : String) (data : FullRunData) :
    UnwrappedResult :=
  { awards := data.awards, patterns_used := data.patterns_used,
    evidence := some data.evidence, model_used := full_model_name provider,
    input_tokens := data.input_tokens, output_tokens := data.output_tokens,
    success := true, error := none }

/-- What the synthesis-without-evidence attempt produced on success. -/
structure NoEvidenceRun where
  awards : List Award
  input_tokens : Nat
  output_tokens : Nat
deriving DecidableEq

/-- `_generate_without_evidence`: try synthesis with patterns only; on any
exception fall back to offline mode, recording both errors. -/
def generate_without_evidence
    (detect_all_patterns : Conversation → Statistics → List DetectedPattern)
    (conversation : Conversation) (stats : Statistics)
    (synthesis_outcome : Except String NoEvidenceRun)
    (evidence_error : String) (provider_name : String) : UnwrappedResult :=
  let patterns := detect_all_patterns conversation stats
  match synthesis_outcome with
  | Except.ok data =>
    { awards := data.awards, patterns_used := patterns, evidence := none,
      model_used := no_evidence_model_name provider_name,
      input_tokens := data.input_tokens, output_tokens := data.output_tokens,
      success := true,
      error := some ("Evidence gathering failed: " ++ evidence_error) }
  | Except.error e =>
    let result := generate_unwrapped_offline detect_all_patterns
      conversation stats
    { result with
        error := some ("Evidence: " ++ evidence_error ++ "; Synthesis: " ++ e) }

/-- `generate_unwrapped_with_fallback`: forced offline mode, the missing
credential check, then the try/except chain around the full pipeline. -/
def generate_unwrapped_with_fallback
    (detect_all_patterns : Conversation → Statistics → List DetectedPattern)
    (conversation : Conversation) (stats : Statistics)
    (api_key : Option String) (offline : Bool) (provider : String)
    (env_api_key : Option String)
    (pipeline_outcome : Except PipelineError FullRunData)
    (synthesis_outcome : Except String NoEvidenceRun) : UnwrappedResult :=
  if offline then generate_unwrapped_offline detect_all_patterns conversation stats
  else
    let effective_key := if py_truthy api_key then api_key else env_api_key
    if py_truthy effective_key = false then
      generate_unwrapped_offline detect_all_patterns conversation stats
    else
      match pipeline_outcome with
      | Except.ok data => generate_unwrapped_result provider data
      | Except.error (PipelineError.provider e) =>
        let result := generate_unwrapped_offline detect_all_patterns
          conversation stats
        { result with error := some e }
      | Except.error (PipelineError.evidence e) =>
        generate_without_evidence detect_all_patterns conversation stats
          synthesis_outcome e provider
      | Except.error (PipelineError.synthesis e) =>
        let result := generate_unwrapped_offline detect_all_patterns
          conversation stats
        { result with error := some e }
      | Except.error (PipelineError.unexpected e) =>
        let result := generate_unwrapped_offline detect_all_patterns
          conversation stats
        { result with error := some ("Unexpected error: " ++ e) }

/-- Claim C1: for every conversation, statistics, credential situation and
combination of failures (provider/auth error, evidence error, synthesis
error, missing key, unexpected exception, explicit offline request), the
top-level `generate_unwrapped_with_fallback` returns a constructed
`UnwrappedResult` whose success flag is true.  The embedding is a total
function, so the never-raises half of the contract is the totality of this
definition. -/
theorem claim_C1_fallback_always_succeeds
    (detect_all_patterns : Conversation → Statistics → List DetectedPattern)
    (conversation : Conversation) (stats : Statistics)
    (api_key : Option String) (offline : Bool) (provider : String)
    (env_api_key : Option String)
    (pipeline_outcome : Except PipelineError FullRunData)
    (synthesis_outcome : Except String NoEvidenceRun) :
    (generate_unwrapped_with_fallback detect_all_patterns conversation stats
        api_key offline provider env_api_key pipeline_outcome
        synthesis_outcome).success = true := by
  unfold generate_unwrapped_with_fallback generate_without_evidence
  dsimp only
  rcases pipeline_outcome with err | data
  · rcases err with e | e | e | e
    · split_ifs <;> rfl
    · rcases synthesis_outcome with e2 | d2 <;> split_ifs <;> rfl
    · split_ifs <;> rfl
    · split_ifs <;> rfl
  · split_ifs <;> rfl

theorem full_model_name_ne_offline (provider : String) :
    full_model_name provider ≠ "offline" := by
  unfold full_model_name
  split <;> decide

theorem no_evidence_model_name_ne_offline (provider : String) :
    no_evidence_model_name provider ≠ "offline" := by
  unfold no_evidence_model_name
  split <;> decide

/-- The backend identifier of the fallback result, branch by branch. -/
theorem fallback_model_used_eq
    (detect_all_patterns : Conversation → Statistics → List DetectedPattern)
    (conversation : Conversation) (stats : Statistics)
    (api_key : Option String) (offline : Bool) (provider : String)
    (env_api_key : Option String)
    (pipeline_outcome : Except PipelineError FullRunData)
    (synthesis_outcome : Except String NoEvidenceRun) :
    (generate_unwrapped_with_fallback detect_all_patterns conversation stats
        api_key offline provider env_api_key pipeline_outcome
        synthesis_outcome).model_used
      = if offline then "offline"
        else if py_truthy
            (if py_truthy api_key then api_key else env_api_key) = false then
          "offline"
        else
          match pipeline_outcome with
          | Except.ok _ => full_model_name provider
          | Except.error (PipelineError.provider _) => "offline"
          | Except.error (PipelineError.evidence _) =>
            match synthesis_outcome with
            | Except.ok _ => no_evidence_model_name provider
            | Except.error _ => "offline"
          | Except.error (PipelineError.synthesis _) => "offline"
          | Except.error (PipelineError.unexpected _) => "offline" := by
  unfold generate_unwrapped_with_fallback generate_without_evidence
  dsimp only
  rcases pipeline_outcome with err | data
  · rcases err with e | e | e | e
    · split_ifs <;> rfl
    · rcases synthesis_outcome with e2 | d2 <;> split_ifs <;> rfl
    · split_ifs <;> rfl
    · split_ifs <;> rfl
  · split_ifs <;> rfl

/-- The conditions under which the fallback chain runs
`generate_unwrapped_offline` and hence stamps the offline sentinel. -/
def degrades_to_pattern_only (api_key : Option String) (offline : Bool)
    (env_api_key : Option String)
    (pipeline_outcome : Except PipelineError FullRunData)
    (synthesis_outcome : Except String NoEvidenceRun) : Prop :=
  offline = true
  ∨ py_truthy (if py_truthy api_key then api_key else env_api_key) = false
  ∨ (∃ e, pipeline_outcome = Except.error (PipelineError.provider e))
  ∨ (∃ e, pipeline_outcome = Except.error (PipelineError.synthesis e))
  ∨ (∃ e, pipeline_outcome = Except.error (PipelineError.unexpected e))
  ∨ (∃ e e2, pipeline_outcome = Except.error (PipelineError.evidence e)
      ∧ synthesis_outcome = Except.error e2)

/-- Claim C4, amended: the result carries the offline sentinel exactly on
the pattern-only degradation paths — explicit offline request, missing
credentials, provider error, synthesis error, unexpected exception, or an
evidence error whose no-evidence synthesis retry also fails.  (The
original claim, that only the offline/no-credentials paths produce the
sentinel, is refuted by the counterexample: a provider error with valid
credentials also falls back to `generate_unwrapped_offline`.) -/
theorem claim_C4_offline_sentinel_iff_pattern_only
    (detect_all_patterns : Conversation → Statistics → List DetectedPattern)
    (conversation : Conversation) (stats : Statistics)
    (api_key : Option String) (offline : Bool) (provider : String)
    (env_api_key : Option String)
    (pipeline_outcome : Except PipelineError FullRunData)
    (synthesis_outcome : Except String NoEvidenceRun) :
    (generate_unwrapped_with_fallback detect_all_patterns conversation stats
        api_key offline provider env_api_key pipeline_outcome
        synthesis_outcome).model_used = "offline"
      ↔ degrades_to_pattern_only api_key offline env_api_key
          pipeline_outcome synthesis_outcome := by
  rw [fallback_model_used_eq]
  unfold degrades_to_pattern_only
  rcases pipeline_outcome with err | data
  · rcases err with e | e | e | e
    · split_ifs <;> simp_all
    · rcases synthesis_outcome with e2 | d2
      · split_ifs <;> simp_all
      · split_ifs <;> simp_all [no_evidence_model_name_ne_offline provider]
    · split_ifs <;> simp_all
    · split_ifs <;> simp_all
  · split_ifs <;> simp_all [full_model_name_ne_offline provider]

/-- Statistics with one participant. -/
def stats_w : Statistics :=
  { basic := { messages_per_person := [("Alice", 3)] } }

/-- A pattern-detection collaborator that finds nothing. -/
def detect_none : Conversation → Statistics → List DetectedPattern :=
  fun _ _ => []

/-- Claim C4 as stated is false on the code: the caller does not request
offline mode and an API key is available (the literal arguments `false`
and `some "sk-key"`), yet a provider error makes the fallback return a
result carrying the offline sentinel. -/
theorem claim_C4_counterexample :
    py_truthy (some "sk-key") = true
    ∧ (generate_unwrapped_with_fallback detect_none
        single_message_conversation stats_w (some "sk-key") false
        PROVIDER_ANTHROPIC none
        (Except.error (PipelineError.provider "rate limited"))
        (Except.ok { awards := [], input_tokens := 0, output_tokens := 0
          })).model_used = "offline" :=
  ⟨rfl, rfl⟩

theorem assoc_nat_get_initial (participants : List String) (person : String) :
    assoc_nat_get (initial_counts participants) person = 0 := by
  induction participants with
  | nil => rfl
  | cons p rest ih =>
    simp only [initial_counts, List.map_cons, assoc_nat_get] at ih ⊢
    split
    · rfl
    · exact ih

theorem assoc_nat_get_bump (counts : List (String × Nat)) (key person : String) :
    assoc_nat_get (assoc_nat_bump counts key) person
      = assoc_nat_get counts person + (if person = key then 1 else 0) := by
  induction counts with
  | nil =>
    simp only [assoc_nat_bump, assoc_nat_get]
    by_cases h : person = key
    · subst h
      simp
    · simp [h, Ne.symm h]
  | cons kv rest ih =>
    simp only [assoc_nat_bump]
    by_cases hk : kv.1 == key
    · rw [if_pos hk]
      have hk' : kv.1 = key := by simpa using hk
      simp only [assoc_nat_get]
      by_cases hp : kv.1 == person
      · have hp' : kv.1 = person := by simpa using hp
        rw [if_pos hp, if_pos hp]
        have : person = key := by rw [← hp', hk']
        simp [this]
      · have hp' : kv.1 ≠ person := by simpa using hp
        rw [if_neg hp, if_neg hp]
        have : person ≠ key := by
          intro h
          exact hp' (by rw [hk', h])
        simp [this]
    · rw [if_neg hk]
      simp only [assoc_nat_get]
      by_cases hp : kv.1 == person
      · rw [if_pos hp, if_pos hp]
        have hp' : kv.1 = person := by simpa using hp
        have hk' : kv.1 ≠ key := by simpa using hk
        have : person ≠ key := by
          intro h
          exact hk' (by rw [hp', h])
        simp [this]
      · rw [if_neg hp, if_neg hp]
        exact ih

/-- The pattern phase of `_create_pattern_awards` keeps every person at or
below the `max_per_person = 4` cap. -/
theorem awards_loop_le_four :
    ∀ (patterns : List DetectedPattern) (awards : List Award)
      (counts : List (String × Nat)),
      (∀ person, awards.countP (fun a => a.recipient == person)
        = assoc_nat_get counts person) →
      (∀ person, assoc_nat_get counts person ≤ 4) →
      ∀ person, ((awards_loop patterns awards counts).1.countP
        (fun a => a.recipient == person)) ≤ 4 := by
  intro patterns
  induction patterns with
  | nil =>
    intro awards counts hinv hcap person
    simp only [awards_loop]
    rw [hinv person]
    exact hcap person
  | cons p rest ih =>
    intro awards counts hinv hcap person
    simp only [awards_loop]
    split
    · rw [hinv person]
      exact hcap person
    · split
      · exact ih awards counts hinv hcap person
      · rename_i hlen hget
        apply ih
        · intro q
          rw [List.countP_append, hinv q, assoc_nat_get_bump]
          have hone : List.countP (fun a => a.recipient == q) [pattern_award p]
              = if q = p.person then 1 else 0 := by
            have hrec : (pattern_award p).recipient = p.person := rfl
            simp only [List.countP_cons, List.countP_nil, hrec]
            by_cases hq : q = p.person
            · subst hq
              simp
            · have hne : p.person ≠ q := fun h => hq h.symm
              simp [hq, hne]
          rw [hone]
        · intro q
          rw [assoc_nat_get_bump]
          by_cases hq : q = p.person
          · subst hq
            have h4 : assoc_nat_get counts p.person < 4 := by omega
            rw [if_pos rfl]
            omega
          · rw [if_neg hq]
            simpa using hcap q

/-- The backfill loop reaches 6 awards whenever a participant exists. -/
theorem backfill_go_length (p0 : String) (rest : List String) :
    ∀ (fuel : Nat) (awards : List Award) (counts : List (String × Nat)),
      6 ≤ fuel + awards.length →
      6 ≤ (backfill_go (p0 :: rest) fuel awards counts).length := by
  intro fuel
  induction fuel with
  | zero =>
    intro awards counts h
    simpa [backfill_go] using h
  | succ fuel ih =>
    intro awards counts h
    simp only [backfill_go]
    split
    · refine le_trans ?_ (ih _ _ ?_)
      · exact le_refl 6
      · simp only [List.length_append, List.length_cons, List.length_nil]
        omega
    · rename_i hlen
      omega

/-- With at least one participant, `_create_pattern_awards` returns
exactly 6 awards. -/
theorem create_pattern_awards_length (patterns : List DetectedPattern)
    (participants : List String) (hne : participants ≠ []) :
    (create_pattern_awards patterns participants).length = 6 := by
  obtain ⟨p0, rest, rfl⟩ : ∃ p0 rest, participants = p0 :: rest := by
    cases participants with
    | nil => exact absurd rfl hne
    | cons p0 rest => exact ⟨p0, rest, rfl⟩
  unfold create_pattern_awards
  dsimp only
  rw [List.length_take]
  have h := backfill_go_length p0 rest
    (6 - (awards_loop patterns [] (initial_counts (p0 :: rest))).1.length)
    (awards_loop patterns [] (initial_counts (p0 :: rest))).1
    (awards_loop patterns [] (initial_counts (p0 :: rest))).2
    (by omega)
  omega

/-- Claim C5, amended: in pattern-only (offline) mode with at least one
participant, the result holds exactly 6 output items — the pattern-derived
items, at most 4 per participant, topped up with generic backfill items
that may push a participant past that cap — and both token counters are 0.
(The original count `min(6, qualifying patterns)` and the universal
per-participant cap are refuted by the counterexample: with no patterns
and a single participant the backfill emits 6 awards to that one
participant.) -/
theorem claim_C5_pattern_only_output_shape
    (detect_all_patterns : Conversation → Statistics → List DetectedPattern)
    (conversation : Conversation) (stats : Statistics)
    (hparticipants : stats.basic.messages_per_person ≠ []) :
    (generate_unwrapped_offline detect_all_patterns conversation
        stats).awards.length = 6
    ∧ (generate_unwrapped_offline detect_all_patterns conversation
        stats).input_tokens = 0
    ∧ (generate_unwrapped_offline detect_all_patterns conversation
        stats).output_tokens = 0
    ∧ ∀ person,
        ((awards_loop (detect_all_patterns conversation stats) []
            (initial_counts
              (stats.basic.messages_per_person.map Prod.fst))).1.countP
          (fun a => a.recipient == person)) ≤ 4 := by
  refine ⟨?_, rfl, rfl, ?_⟩
  · apply create_pattern_awards_length
    simpa using hparticipants
  · intro person
    apply awards_loop_le_four
    · intro q
      rw [assoc_nat_get_initial]
      rfl
    · intro q
      rw [assoc_nat_get_initial]
      omega

/-- Claim C5 as stated is false on the code: with no qualifying patterns
and one participant, pattern-only mode still emits 6 awards (instead of
`min(6, 0) = 0`), all of them to the single participant (6 > 4). -/
theorem claim_C5_counterexample :
    detect_none single_message_conversation stats_w = []
    ∧ (generate_unwrapped_offline detect_none single_message_conversation
        stats_w).awards.length = 6
    ∧ ((generate_unwrapped_offline detect_none single_message_conversation
        stats_w).awards.countP (fun a => a.recipient == "Alice")) = 6 := by
  decide

/-- Witness for claim C5 at concrete statistics with one participant. -/
theorem claim_C5_witness :
    (generate_unwrapped_offline detect_none single_message_conversation
        stats_w).awards.length = 6 :=
  (claim_C5_pattern_only_output_shape detect_none
    single_message_conversation stats_w (by decide)).1

end WhatsappUnwrapped
